import Mathlib

/-!
youtube-transcript: a shallow embedding of the transcript pipeline.

The development follows `transcript_list_fetcher.go` and `get_transcript.go`.

* Go `string` values are Lean `String`s; the helpers of package `strings` work on
  the underlying character lists.
* Go maps `map[string]V` are association lists read with `List.lookup`; a key is
  present when the lookup is `some _`.
* A function that returns `(T, error)` and may abort on a failed type assertion
  returns a `GoResult T`.
* Calls into libraries that are not part of the repository (`json.Unmarshal`,
  `xmltree.Parse`, `html.UnescapeString`, `strconv.ParseFloat`, the client of
  `net/http`) are parameters of the embedded functions; the HTTP client is a state
  that is passed along.
-/

set_option maxRecDepth 100000

namespace YoutubeTranscript

/-! ## Errors and results -/

/-- The sentinel errors of `transcript_list_fetcher.go`, an error value coming out
of a library call, and `fmt.Errorf(msg + ": %w", cause)`. -/
inductive Error where
  | ErrVideoUnavailable
  | ErrTooManyRequests
  | ErrYoutubeRequestFailed
  | ErrNoTranscriptFound
  | ErrNotTranslatable
  | ErrFailedToCreateConsetCookie
  | ErrInvalidVideoID
  | ErrTranscriptDisabled
  | lib (msg : String)
  | wrap (msg : String) (cause : Error)
  deriving DecidableEq, Repr

/-- Outcome of a Go call returning `(T, error)`: a value with a nil error, a
non-nil error, or a run-time abort (failed type assertion). -/
inductive GoResult (α : Type) where
  | ok (a : α)
  | err (e : Error)
  | panic
  deriving Repr

/-! ## Package `strings` -/

namespace strings

/-- Offset of the first position of `s` (counted from `i`) at which `sub` starts. -/
def indexAux (sub : List Char) : List Char → Nat → Option Nat
  | [], i => if sub.isEmpty then some i else none
  | c :: rest, i =>
    if sub.isPrefixOf (c :: rest) then some i else indexAux sub rest (i + 1)

/-- Go `strings.Index`, with `none` for `-1`. -/
def Index (s substr : String) : Option Nat := indexAux substr.data s.data 0

/-- Go `strings.Contains`: `Index(s, substr) >= 0`. -/
def Contains (s substr : String) : Bool := (Index s substr).isSome

/-- Go `strings.HasPrefix`. -/
def HasPrefix (s pre : String) : Bool := pre.data.isPrefixOf s.data

/-- The loop of `genSplit`: cut at the first occurrence of `sep`, go on with what
follows it. The fuel bounds the number of cuts. -/
def splitAux (sep : List Char) : Nat → List Char → List (List Char)
  | 0, s => [s]
  | fuel + 1, s =>
    match indexAux sep s 0 with
    | none => [s]
    | some m => s.take m :: splitAux sep fuel (s.drop (m + sep.length))

/-- Go `strings.Split` for a non-empty separator (both call sites pass a literal). -/
def Split (s sep : String) : List String :=
  (splitAux sep.data (s.data.length + 1) s.data).map String.mk

/-- The loop of `strings.Replace` with `n = -1`. -/
def replaceAux (old new : List Char) : Nat → List Char → List Char
  | 0, s => s
  | fuel + 1, s =>
    match indexAux old s 0 with
    | none => s
    | some j => s.take j ++ new ++ replaceAux old new fuel (s.drop (j + old.length))

/-- Go `strings.Replace(s, old, new, -1)` for a non-empty `old`. -/
def Replace (s old new : String) : String :=
  String.mk (replaceAux old.data new.data (s.data.length + 1) s.data)

/-- Go `strings.Join`. -/
def Join (elems : List String) (sep : String) : String :=
  sep.intercalate elems

end strings

/-! ## Decoded JSON and the catalog -/

/-- A value produced by `json.Unmarshal` into `any`; `null` is also the nil
interface obtained by reading a key that a map does not have. -/
inductive JSON where
  | null
  | bool (b : Bool)
  | number (q : ℚ)
  | string (s : String)
  | array (xs : List JSON)
  | object (kvs : List (String × JSON))

/-- Go `map[string]V`. -/
abbrev GoMap (V : Type) := List (String × V)

/-- The struct `Transcript`; the `httpClient` pointer is left out, the transport
is passed explicitly where a request is made. -/
structure Transcript where
  videoID : String
  requestURL : String
  language : String
  languageCode : String
  isGenerated : Bool
  transltionLanguages : JSON

/-- A value of type `any` stored in one of the catalog maps: a `Transcript`, or a
value of any other dynamic type. -/
inductive Any where
  | transcript (t : Transcript)
  | other (j : JSON)

/-- The struct `translationLanguage`. -/
structure translationLanguage where
  Language : String
  LanguageCode : String
  deriving DecidableEq, Repr

/-- The struct `TranscriptList`. -/
structure TranscriptList where
  VideoID : String
  ManuallyCreatedTranscripts : GoMap Any
  GeneratedTranscripts : GoMap Any
  Translationlanguages : List translationLanguage

/-- The inner loop of `FindTranscript`: the first of the dictionaries that has
`languageCode` as a key decides. -/
def findInDicts (languageCode : String) : List (GoMap Any) → Option Any
  | [] => none
  | transcriptDict :: rest =>
    match transcriptDict.lookup languageCode with
    | some transcript => some transcript
    | none => findInDicts languageCode rest

/-- `TranscriptList.FindTranscript`: the outer loop over `languageCodes`; the value
found is asserted to be a `Transcript`. -/
def FindTranscript (tl : TranscriptList) : List String → GoResult Transcript
  | [] => .err .ErrNoTranscriptFound
  | languageCode :: rest =>
    match findInDicts languageCode [tl.ManuallyCreatedTranscripts, tl.GeneratedTranscripts] with
    | some (.transcript t) => .ok t
    | some (.other _) => .panic
    | none => FindTranscript tl rest

/-- `code` is a key of the manual or of the generated partition. -/
def isKey (tl : TranscriptList) (code : String) : Bool :=
  (tl.ManuallyCreatedTranscripts.lookup code).isSome ||
    (tl.GeneratedTranscripts.lookup code).isSome

/-! ### Example catalogs -/

/-- A track with the given language code and origin. -/
def sampleTrack (code : String) (generated : Bool) : Transcript :=
  { videoID := "vid", requestURL := "https://example.test/" ++ code,
    language := code, languageCode := code, isGenerated := generated,
    transltionLanguages := .bool true }

/-- Manual English and generated French. -/
def catalogEnFr : TranscriptList :=
  { VideoID := "vid",
    ManuallyCreatedTranscripts := [("en", .transcript (sampleTrack "en" false))],
    GeneratedTranscripts := [("fr", .transcript (sampleTrack "fr" true))],
    Translationlanguages := [] }

/-- Manual and generated English side by side. -/
def catalogEnEn : TranscriptList :=
  { VideoID := "vid",
    ManuallyCreatedTranscripts := [("en", .transcript (sampleTrack "en" false))],
    GeneratedTranscripts := [("en", .transcript (sampleTrack "en" true))],
    Translationlanguages := [] }

/-! ## Manifest extraction -/

/-- `TranscriptListFetcher.extractCaptionsJSON`. `jsonUnmarshal` stands for
`json.Unmarshal` into a `map[string]any` (JSON `null` leaves the map empty); the
assertion `.(map[string]any)` aborts on anything that is not an object. -/
def extractCaptionsJSON (jsonUnmarshal : String → Except Error (GoMap JSON))
    (videoHTML videoID : String) : GoResult (GoMap JSON) :=
  let splittedHTML := strings.Split videoHTML "\"captions\":"
  if splittedHTML.length ≤ 1 then
    if strings.HasPrefix videoID "http://" || strings.HasPrefix videoID "https://" then
      .err .ErrInvalidVideoID
    else if strings.Contains videoHTML "class=\"g-recaptcha" then
      .err .ErrTooManyRequests
    else if !strings.Contains videoHTML "\"playabilityStatus\":" then
      .err .ErrVideoUnavailable
    else
      .err .ErrTranscriptDisabled
  else
    let htmlChunk := strings.Split (splittedHTML.getD 1 "") ",\"videoDetails"
    let chunk0 := strings.Replace (htmlChunk.headD "") "\n" ""
    match jsonUnmarshal chunk0 with
    | .error e => .err (.wrap "failed to unmarshal captions JSON" e)
    | .ok captions =>
      match captions.lookup "playerCaptionsTracklistRenderer" with
      | some (.object renderer) =>
        if renderer.length = 0 then
          .err .ErrTranscriptDisabled
        else if (renderer.lookup "captionTracks").isNone then
          .err .ErrNoTranscriptFound
        else
          .ok renderer
      | _ => .panic

/-! ## Regular expressions

The operators that occur in the pattern of `getHTMLRegex`, with the leftmost-first
semantics of Go's `regexp`: among the matches that start at the leftmost possible
position, the one a backtracking search finds first. -/

/-- Syntax of the expressions used. -/
inductive Re where
  | lit (c : Char)
  | any
  | wordB
  | seq (a b : Re)
  | alt (a b : Re)
  | opt (a : Re)
  | starLazy (a : Re)
  | fail
  deriving Repr

/-- A position in the subject: the character before it, if any, and what is left. -/
abbrev Pos := Option Char × List Char

/-- Go `syntax.IsWordChar`: ASCII letters, digits and the underscore. -/
def isWordChar (c : Char) : Bool :=
  ('A' ≤ c && c ≤ 'Z') || ('a' ≤ c && c ≤ 'z') || ('0' ≤ c && c ≤ '9') || c == '_'

/-- The assertion `\b`: a word character on exactly one side of the position. -/
def atWordBoundary (p : Pos) : Bool :=
  (match p.1 with
    | some c => isWordChar c
    | none => false) !=
  (match p.2 with
    | c :: _ => isWordChar c
    | [] => false)

/-- Iteration of `a*?`: stop here first, else one more round of `step`. The fuel
is the number of characters left; a round that consumes nothing is not repeated. -/
def lazyStar (step : Pos → List Pos) : Nat → Pos → List Pos
  | 0, p => [p]
  | n + 1, p =>
    p :: (step p).flatMap
      (fun q => if q.2.length < p.2.length then lazyStar step n q else [])

/-- All ways of matching the expression from a position, in the order in which a
backtracking search tries them; each gives the position after the match. -/
def Re.run : Re → Pos → List Pos
  | .lit c, p =>
    match p.2 with
    | d :: rest => if c = d then [(some d, rest)] else []
    | [] => []
  | .any, p =>
    match p.2 with
    | d :: rest => if d = '\n' then [] else [(some d, rest)]
    | [] => []
  | .wordB, p => if atWordBoundary p then [p] else []
  | .seq a b, p => (a.run p).flatMap b.run
  | .alt a b, p => a.run p ++ b.run p
  | .opt a, p => a.run p ++ [p]
  | .starLazy a, p => lazyStar a.run p.2.length p
  | .fail, _ => []

/-- The loop of `Regexp.ReplaceAllString`, for an expression that never matches the
empty string and a replacement without `$`: at each position try a match; a match
is replaced by `repl` and the search goes on after it, otherwise the character is
copied. -/
def replaceAllAux (re : Re) (repl : List Char) : Nat → Option Char → List Char → List Char
  | 0, _, s => s
  | _ + 1, _, [] => []
  | fuel + 1, prev, c :: rest =>
    match (re.run (prev, c :: rest)).head? with
    | some (prev', rest') =>
      if rest'.length < (c :: rest).length then
        repl ++ replaceAllAux re repl fuel prev' rest'
      else
        c :: replaceAllAux re repl fuel (some c) rest
    | none => c :: replaceAllAux re repl fuel (some c) rest

/-- Go `re.ReplaceAllString(src, repl)`. -/
def Re.ReplaceAllString (re : Re) (src repl : String) : String :=
  String.mk (replaceAllAux re repl.data (src.data.length + 1) none src.data)

/-- The expression that matches exactly the characters of `w`. -/
def Re.word (w : String) : Re :=
  match w.data with
  | [] => .opt .fail
  | c :: cs => cs.foldl (fun r d => .seq r (.lit d)) (.lit c)

/-- The alternation `w₁|w₂|…` of a list of words. -/
def Re.words : List String → Re
  | [] => .fail
  | [w] => Re.word w
  | w :: ws => .alt (Re.word w) (Re.words ws)

/-! ## Caption documents -/

/-- Go `xml.Name`. -/
structure Name where
  Space : String
  Local : String
  deriving DecidableEq, Repr

/-- Go `xml.Attr`. -/
structure Attr where
  Name : Name
  Value : String
  deriving DecidableEq, Repr

/-- The struct `xmltree.Element`: the start element (name and attributes), the raw
inner text of the element, and the child elements. -/
inductive Element where
  | mk (Name : Name) (Attr : List Attr) (Content : String) (Children : List Element)

/-- Field `StartElement.Name`. -/
def Element.Name : Element → Name
  | .mk n _ _ _ => n

/-- Field `StartElement.Attr`. -/
def Element.Attr : Element → List Attr
  | .mk _ a _ _ => a

/-- Field `Content`. -/
def Element.Content : Element → String
  | .mk _ _ c _ => c

/-- Field `Children`. -/
def Element.Children : Element → List Element
  | .mk _ _ _ cs => cs

/-- The struct `ReturnTranscript`; `F` stands for `float64`. -/
structure ReturnTranscript (F : Type) where
  Text : String
  Start : F
  Duration : F
  deriving DecidableEq, Repr

/-- The library calls made by `TranscriptParser.Parse`. -/
structure Libs (F : Type) where
  /-- The call `xmltree.Parse(b)`. -/
  xmlParse : String → Except Error Element
  /-- The call `html.UnescapeString(s)`. -/
  UnescapeString : String → String
  /-- The call `strconv.ParseFloat(s, 64)`. -/
  ParseFloat : String → Except Error F

/-- The struct `TranscriptParser`. -/
structure TranscriptParser where
  preserveFormatting : Bool
  deriving DecidableEq, Repr

/-- The slice `formattingTags` of `getHTMLRegex`. -/
def formattingTags : List String :=
  ["strong", "em", "b", "i", "mark", "small", "del", "ins", "sub", "sup"]

/-- `TranscriptParser.getHTMLRegex`: the compiled form of the pattern
`<\/?(!\/?(strong|em|b|i|mark|small|del|ins|sub|sup)\b).*?\b>`. The receiver is not
consulted. -/
def TranscriptParser.getHTMLRegex (_t : TranscriptParser) : Re :=
  .seq (.lit '<') <| .seq (.opt (.lit '/')) <|
    .seq (.seq (.lit '!') <| .seq (.opt (.lit '/')) <| .seq (Re.words formattingTags) .wordB) <|
    .seq (.starLazy .any) <| .seq .wordB (.lit '>')

/-- The loop over `xmlElement.StartElement.Attr`: each `start` and each `dur`
attribute is parsed, the first failure is returned wrapped. -/
def parseAttrs {F : Type} (ParseFloat : String → Except Error F) :
    List Attr → F → F → Except Error (F × F)
  | [], start, duration => .ok (start, duration)
  | attr :: rest, start, duration =>
    match (if attr.Name.Local = "start" then
        (match ParseFloat attr.Value with
          | .error e => .error (.wrap "failed to parse start" e)
          | .ok v => .ok v)
      else .ok start : Except Error F) with
    | .error e => .error e
    | .ok start' =>
      match (if attr.Name.Local = "dur" then
          (match ParseFloat attr.Value with
            | .error e => .error (.wrap "failed to parse duration" e)
            | .ok v => .ok v)
        else .ok duration : Except Error F) with
      | .error e => .error e
      | .ok duration' => parseAttrs ParseFloat rest start' duration'

/-- The body of the loop of `Parse` for one `text` element: unescape the content,
delete the matches of the expression, read the attributes starting from zero. -/
def segmentOf {F : Type} [Zero F] (lib : Libs F) (htmlRegex : Re) (xmlElement : Element) :
    Except Error (ReturnTranscript F) :=
  let content := lib.UnescapeString xmlElement.Content
  let text := htmlRegex.ReplaceAllString content ""
  match parseAttrs lib.ParseFloat xmlElement.Attr 0 0 with
  | .error e => .error e
  | .ok (start, duration) => .ok { Text := text, Start := start, Duration := duration }

/-- The loop of `Parse` over `xmlTree.Children`, with the slice built so far. -/
def parseChildren {F : Type} [Zero F] (lib : Libs F) (htmlRegex : Re) :
    List Element → List (ReturnTranscript F) → Except Error (List (ReturnTranscript F))
  | [], transcript => .ok transcript
  | xmlElement :: rest, transcript =>
    if xmlElement.Name.Local = "text" then
      match segmentOf lib htmlRegex xmlElement with
      | .error e => .error e
      | .ok seg => parseChildren lib htmlRegex rest (transcript ++ [seg])
    else
      parseChildren lib htmlRegex rest transcript

/-- `TranscriptParser.Parse`: the pair of results of the Go function, the slice
(nil when an error is returned) and the error (`none` for nil). -/
def TranscriptParser.Parse {F : Type} [Zero F] (lib : Libs F) (t : TranscriptParser)
    (b : String) : List (ReturnTranscript F) × Option Error :=
  let htmlRegex := t.getHTMLRegex
  match lib.xmlParse b with
  | .error e => ([], some (.wrap "failed to parse XML data" e))
  | .ok xmlTree =>
    match parseChildren lib htmlRegex xmlTree.Children [] with
    | .error e => ([], some e)
    | .ok transcript => (transcript, none)

/-- The `text` children of the root, in document order. -/
def textChildren (root : Element) : List Element :=
  root.Children.filter (fun e => decide (e.Name.Local = "text"))

/-- `e` reports the failure of `ParseFloat` on a `start` or `dur` attribute of
`attrs`, wrapped the way `Parse` wraps it. -/
def IsAttrFailure {F : Type} (ParseFloat : String → Except Error F) (attrs : List Attr)
    (e : Error) : Prop :=
  ∃ a ∈ attrs, ∃ cause, ParseFloat a.Value = .error cause ∧
    ((a.Name.Local = "start" ∧ e = .wrap "failed to parse start" cause) ∨
      (a.Name.Local = "dur" ∧ e = .wrap "failed to parse duration" cause))

/-- Every `start` and every `dur` attribute of a `text` child of the root is accepted
by `ParseFloat`. -/
def ValidNumbers {F : Type} (lib : Libs F) (root : Element) : Prop :=
  ∀ e ∈ textChildren root, ∀ a ∈ e.Attr,
    (a.Name.Local = "start" ∨ a.Name.Local = "dur") → ∃ v, lib.ParseFloat a.Value = .ok v

/-! ### Example library and documents

Concrete stand-ins for the library calls, used to evaluate the embedded functions on
examples. -/

/-- One pass over the text decoding the entities `&amp;`, `&lt;`, `&gt;` and
`&quot;`; what `html.UnescapeString` does on text with no other entity. -/
def unescapeBasic : List Char → List Char
  | '&' :: 'a' :: 'm' :: 'p' :: ';' :: rest => '&' :: unescapeBasic rest
  | '&' :: 'l' :: 't' :: ';' :: rest => '<' :: unescapeBasic rest
  | '&' :: 'g' :: 't' :: ';' :: rest => '>' :: unescapeBasic rest
  | '&' :: 'q' :: 'u' :: 'o' :: 't' :: ';' :: rest => '"' :: unescapeBasic rest
  | c :: rest => c :: unescapeBasic rest
  | [] => []

/-- The literals of the examples with their values: three decimal literals and the
hexadecimal floating-point literal `0x1p-2`, which `strconv.ParseFloat` accepts with
the value 0.25; anything else is rejected the way `strconv.ParseFloat` rejects `abc`. -/
def sampleParseFloat (s : String) : Except Error ℚ :=
  if s = "0.5" then .ok (1 / 2)
  else if s = "2.3" then .ok (23 / 10)
  else if s = "7" then .ok 7
  else if s = "0x1p-2" then .ok (1 / 4)
  else .error (.lib "strconv.ParseFloat: invalid syntax")

/-- A library whose XML reader knows the document `doc`, with tree `root`. -/
def sampleLib (doc : String) (root : Element) : Libs ℚ :=
  { xmlParse := fun b =>
      if b = doc then .ok root else .error (.lib "XML syntax error")
    UnescapeString := fun s => String.mk (unescapeBasic s.data)
    ParseFloat := sampleParseFloat }

/-- An element without children. -/
def leaf (name : String) (attrs : List (String × String)) (content : String) : Element :=
  .mk { Space := "", Local := name }
    (attrs.map (fun kv => { Name := { Space := "", Local := kv.1 }, Value := kv.2 }))
    content []

/-- A root element `transcript` with the given children. -/
def transcriptRoot (children : List Element) : Element :=
  .mk { Space := "", Local := "transcript" } [] "" children

/-- The `strong` child that the XML reader finds inside the `text` element of
`docStrong`. -/
def strongChild : Element := leaf "strong" [] "hi"

/-- The document `<transcript><text><strong>hi</strong> there</text></transcript>`. -/
def docStrong : String :=
  "<transcript><text><strong>hi</strong> there</text></transcript>"

/-- The tree of `docStrong`: the content of `text` is its raw inner text. -/
def rootStrong : Element :=
  transcriptRoot [.mk { Space := "", Local := "text" } [] "<strong>hi</strong> there"
    [strongChild]]

/-- The document `<transcript><text>&lt;!b&gt;x</text></transcript>`. -/
def docBang : String := "<transcript><text>&lt;!b&gt;x</text></transcript>"

/-- The tree of `docBang`. -/
def rootBang : Element := transcriptRoot [leaf "text" [] "&lt;!b&gt;x"]

/-- A document whose `text` element holds entity-escaped tags. -/
def docEscaped : String :=
  "<transcript><text start=\"0.5\" dur=\"2.3\">&lt;strong&gt;x&lt;/strong&gt;</text></transcript>"

/-- The tree of `docEscaped`. -/
def rootEscaped : Element :=
  transcriptRoot
    [leaf "text" [("start", "0.5"), ("dur", "2.3")] "&lt;strong&gt;x&lt;/strong&gt;"]

/-- A document with two `text` elements around a child of another name; the second
`text` element has no `start` and no `dur`. -/
def docMixed : String :=
  "<transcript><text start=\"0.5\" dur=\"2.3\">one</text><note>n</note><text>two</text></transcript>"

/-- The tree of `docMixed`. -/
def rootMixed : Element :=
  transcriptRoot
    [leaf "text" [("start", "0.5"), ("dur", "2.3")] "one", leaf "note" [] "n",
      leaf "text" [] "two"]

/-- A document whose second `text` element has `start="abc"`. -/
def docBadStart : String :=
  "<transcript><text start=\"0.5\" dur=\"2.3\">one</text><text start=\"abc\">two</text></transcript>"

/-- The tree of `docBadStart`. -/
def rootBadStart : Element :=
  transcriptRoot
    [leaf "text" [("start", "0.5"), ("dur", "2.3")] "one", leaf "text" [("start", "abc")] "two"]

/-- A decoder that rejects every input. -/
def rejectJSON : String → Except Error (GoMap JSON) :=
  fun _ => .error (.lib "unexpected end of JSON input")

/-- A page with the CAPTCHA marker and neither `"captions":` nor
`"playabilityStatus":`. -/
def captchaPage : String :=
  "<html><body><div class=\"g-recaptcha\" data-sitekey=\"k\"></div></body></html>"

/-! ## Building the catalog -/

/-- The type assertion `v.(string)`; `none` when it fails. -/
def JSON.asString : JSON → Option String
  | .string s => some s
  | _ => none

/-- The type assertion `v.(map[string]any)`; `none` when it fails. -/
def JSON.asObject : JSON → Option (GoMap JSON)
  | .object kvs => some kvs
  | _ => none

/-- The type assertion `v.([]any)`; `none` when it fails. -/
def JSON.asArray : JSON → Option (List JSON)
  | .array xs => some xs
  | _ => none

/-- The index expression `m[key]` on a `map[string]any`: nil for a missing key. -/
def mapIndex (m : GoMap JSON) (key : String) : JSON :=
  (m.lookup key).getD .null

/-- The assignment `m[key] = v`: an earlier entry for `key` is replaced. -/
def mapSet {V : Type} (m : GoMap V) (key : String) (v : V) : GoMap V :=
  (key, v) :: m.filter (fun kv => kv.1 != key)

/-- The body of the first loop of `NewTranscriptList`; `none` when one of its type
assertions fails. -/
def translationLanguageOf (caption : JSON) : Option translationLanguage :=
  match caption.asObject with
  | none => none
  | some caption =>
    match (mapIndex caption "languageName").asObject with
    | none => none
    | some languageName =>
      match (mapIndex languageName "simpleText").asString with
      | none => none
      | some language =>
        match (mapIndex caption "languageCode").asString with
        | none => none
        | some languageCode => some { Language := language, LanguageCode := languageCode }

/-- The first loop of `NewTranscriptList`, appending to the slice built so far. -/
def translationLoop : List JSON → List translationLanguage → Option (List translationLanguage)
  | [], translationLanguages => some translationLanguages
  | caption :: rest, translationLanguages =>
    match translationLanguageOf caption with
    | none => none
    | some tl => translationLoop rest (translationLanguages ++ [tl])

/-- The variable `kind` of the second loop: `caption["kind"].(string)` in the form
that yields the empty string when the assertion fails. -/
def kindOf (caption : GoMap JSON) : String :=
  ((mapIndex caption "kind").asString).getD ""

/-- The struct literal `ts` of the second loop, for a caption that is an object;
`none` when one of its type assertions fails. -/
def transcriptOfObject (videoID : String) (caption : GoMap JSON) : Option Transcript :=
  let kind := kindOf caption
  match (mapIndex caption "baseUrl").asString with
  | none => none
  | some requestURL =>
    match (mapIndex caption "name").asObject with
    | none => none
    | some name =>
      match (mapIndex name "simpleText").asString with
      | none => none
      | some language =>
        match (mapIndex caption "languageCode").asString with
        | none => none
        | some languageCode =>
          some { videoID := videoID, requestURL := requestURL, language := language,
                 languageCode := languageCode, isGenerated := kind == "asr",
                 transltionLanguages := mapIndex caption "isTranslatable" }

/-- The second loop of `NewTranscriptList`: each track goes to the generated map when
its kind is `asr` and to the manual map otherwise, under its language code. The
result is the pair (manual, generated); `none` when a type assertion fails. -/
def captionLoop (videoID : String) :
    List JSON → GoMap Any → GoMap Any → Option (GoMap Any × GoMap Any)
  | [], manuallyCreatedTranscripts, generatedTranscripts =>
    some (manuallyCreatedTranscripts, generatedTranscripts)
  | caption :: rest, manuallyCreatedTranscripts, generatedTranscripts =>
    match caption.asObject with
    | none => none
    | some caption =>
      match transcriptOfObject videoID caption with
      | none => none
      | some ts =>
        let key := ts.languageCode
        if kindOf caption = "asr" then
          captionLoop videoID rest manuallyCreatedTranscripts
            (mapSet generatedTranscripts key (.transcript ts))
        else
          captionLoop videoID rest
            (mapSet manuallyCreatedTranscripts key (.transcript ts)) generatedTranscripts

/-- `NewTranscriptList`. The function has no error return other than nil; a failed
type assertion aborts it. -/
def NewTranscriptList (videoID : String) (captionsJSON : GoMap JSON) :
    GoResult TranscriptList :=
  match (mapIndex captionsJSON "translationLanguages").asArray with
  | none => .panic
  | some entries =>
    match translationLoop entries [] with
    | none => .panic
    | some translationLanguages =>
      match (mapIndex captionsJSON "captionTracks").asArray with
      | none => .panic
      | some tracks =>
        match captionLoop videoID tracks [] [] with
        | none => .panic
        | some (manuallyCreatedTranscripts, generatedTranscripts) =>
          .ok { VideoID := videoID,
                ManuallyCreatedTranscripts := manuallyCreatedTranscripts,
                GeneratedTranscripts := generatedTranscripts,
                Translationlanguages := translationLanguages }

/-- The language code of a caption track of the manifest, when it has one. -/
def trackCode (caption : JSON) : Option String :=
  match caption with
  | .object kvs =>
    match kvs.lookup "languageCode" with
    | some (.string c) => some c
    | _ => none
  | _ => none

/-- The caption track has the field `kind` with the value `"asr"`. -/
def trackIsAsr (caption : JSON) : Bool :=
  match caption with
  | .object kvs =>
    match kvs.lookup "kind" with
    | some (.string k) => k == "asr"
    | _ => false
  | _ => false

/-- The last track of the manifest, in manifest order, that has language code `c`
and is (for `asr = true`) or is not (for `asr = false`) of kind `"asr"`. -/
def lastTrack (tracks : List JSON) (c : String) (asr : Bool) : Option JSON :=
  (tracks.filter (fun x => decide (trackCode x = some c) && (trackIsAsr x == asr))).getLast?

/-- The catalog entry built from a caption track. -/
def entryOf (videoID : String) (caption : JSON) : Option Any :=
  match caption.asObject with
  | none => none
  | some obj => (transcriptOfObject videoID obj).map Any.transcript

/-- A manifest entry for a caption track. -/
def trackJSON (url lang code : String) (kind : Option String) : JSON :=
  .object ((match kind with
      | some k => [("kind", JSON.string k)]
      | none => []) ++
    [("baseUrl", .string url), ("name", .object [("simpleText", .string lang)]),
     ("languageCode", .string code), ("isTranslatable", .bool true)])

/-- A manifest with a manual and an `asr` track for "en" and no `translationLanguages`
field. -/
def manifestNoTranslations : GoMap JSON :=
  [("captionTracks", .array [trackJSON "u1" "English" "en" none,
      trackJSON "u2" "English (auto-generated)" "en" (some "asr")])]

/-- A manifest with a manual "en" track, an `asr` "en" track, a second manual "en"
track and one translation language. -/
def manifestEnEn : GoMap JSON :=
  [("captionTracks", .array [trackJSON "u1" "English" "en" none,
      trackJSON "u2" "English (auto-generated)" "en" (some "asr"),
      trackJSON "u3" "English (UK)" "en" none]),
   ("translationLanguages", .array [.object [("languageCode", .string "fr"),
      ("languageName", .object [("simpleText", .string "French")])]])]

/-! ## Transport and the fetch stages

The HTTP client is a state `σ` (connections, cookie jar, what the server will answer
next) with the calls the code makes on it. -/

/-- The part of `http.Request` that the code sets. -/
structure Request where
  Method : String
  URL : String
  Header : List (String × String)
  deriving DecidableEq, Repr

/-- The part of `http.Response` that the code reads: the status code and the result of
`io.ReadAll(resp.Body)`. -/
structure Response where
  StatusCode : Nat
  Body : Except Error String

/-- The fields of `http.Cookie` that the code sets. -/
structure Cookie where
  Name : String
  Value : String
  Domain : String
  deriving DecidableEq, Repr

/-- The calls on package `net/http`. -/
structure Http (σ : Type) where
  /-- The call `http.NewRequest(method, url, nil)`. -/
  NewRequest : String → String → Except Error Request
  /-- The call `httpClient.Do(req)`. -/
  Do : σ → Request → σ × Except Error Response
  /-- The call `httpClient.Jar.SetCookies(u, cookies)`; `none` when it aborts (the jar
  of the client is nil). -/
  SetCookies : σ → String → List Cookie → Option σ

/-- The constant `WATCH_URL` applied by `fmt.Sprintf`. -/
def WATCH_URL (videoID : String) : String :=
  "https://www.youtube.com/watch?v=" ++ videoID

/-- The marker of the consent page. -/
def consentMarker : String := "action=\"https://consent.youtube.com/s\""

/-- The preferred match of `pre(mid)post` that starts at the position: the text
matched by the group `mid`. -/
def submatchAt (pre mid post : Re) (p : Pos) : Option (List Char) :=
  match ((pre.run p).flatMap (fun q =>
      (mid.run q).flatMap (fun r => (post.run r).map (fun _ => (q, r))))).head? with
  | some (q, r) => some (q.2.take (q.2.length - r.2.length))
  | none => none

/-- The leftmost match of `pre(mid)post` in the text: group 1 of
`FindStringSubmatch`, `none` when the result is nil. -/
def findSubmatch (pre mid post : Re) : Option Char → List Char → Option (List Char)
  | prev, [] => submatchAt pre mid post (prev, [])
  | prev, c :: rest =>
    match submatchAt pre mid post (prev, c :: rest) with
    | some g => some g
    | none => findSubmatch pre mid post (some c) rest

/-- Group 1 of the pattern `name="v" value="(.*?)"` of `createConsetCookie`. -/
def consentToken (html : String) : Option String :=
  (findSubmatch (Re.word "name=\"v\" value=\"") (.starLazy .any) (.lit '"')
    none html.data).map String.mk

/-- `TranscriptListFetcher.createConsetCookie`. -/
def createConsetCookie {σ : Type} (http : Http σ) (s : σ) (html videoID : String) :
    GoResult σ :=
  match consentToken html with
  | none => .err .ErrFailedToCreateConsetCookie
  | some token =>
    match http.SetCookies s (WATCH_URL videoID)
        [{ Name := "CONSENT", Value := "YES+" ++ token, Domain := ".youtube.com" }] with
    | none => .panic
    | some s' => .ok s'

/-- The value of the `User-Agent` header. -/
def userAgent : String :=
  "Mozilla/5.0 (Macintosh; Intel Mac OS X 10_15_7) AppleWebKit/537.36 (KHTML, like Gecko) Chrome/127.0.0.0 Safari/537.36"

/-- `TranscriptListFetcher.fetchHTML`. -/
def fetchHTML {σ : Type} (http : Http σ) (s : σ) (videoID : String) : GoResult (σ × String) :=
  match http.NewRequest "GET" (WATCH_URL videoID) with
  | .error err => .err (.wrap "failed to create HTTP request" err)
  | .ok req =>
    match http.Do s { req with Header := mapSet req.Header "User-Agent" userAgent } with
    | (_, .error err) => .err (.wrap "failed to fetch video HTML" err)
    | (s', .ok resp) =>
      match resp.Body with
      | .error err => .err (.wrap "failed to read response body" err)
      | .ok b => .ok (s', b)

/-- `TranscriptListFetcher.fetchVideoHTML`. The result of `createConsetCookie` is not
assigned: an error it returns is dropped and the page is fetched again. -/
def fetchVideoHTML {σ : Type} (http : Http σ) (s : σ) (videoID : String) :
    GoResult (σ × String) :=
  match fetchHTML http s videoID with
  | .panic => .panic
  | .err err => .err (.wrap "failed to fetch video HTML" err)
  | .ok (s1, html) =>
    if strings.Contains html consentMarker then
      match (match createConsetCookie http s1 html videoID with
          | .panic => none
          | .err _ => some s1
          | .ok s2 => some s2) with
      | none => .panic
      | some s2 =>
        match fetchHTML http s2 videoID with
        | .panic => .panic
        | .err err => .err (.wrap "failed to fetch video HTML" err)
        | .ok (s3, html') =>
          if strings.Contains html' consentMarker then
            .err .ErrFailedToCreateConsetCookie
          else
            .ok (s3, html')
    else
      .ok (s1, html)

/-- `TranscriptListFetcher.Fetch`. -/
def TranscriptListFetcher.Fetch {σ : Type} (http : Http σ)
    (jsonUnmarshal : String → Except Error (GoMap JSON)) (s : σ) (videoID : String) :
    GoResult (σ × TranscriptList) :=
  match fetchVideoHTML http s videoID with
  | .panic => .panic
  | .err err => .err (.wrap "failed to fetch video HTML" err)
  | .ok (s1, html) =>
    match extractCaptionsJSON jsonUnmarshal html videoID with
    | .panic => .panic
    | .err err => .err (.wrap "failed to extract captions JSON" err)
    | .ok captionsJSON =>
      match NewTranscriptList videoID captionsJSON with
      | .panic => .panic
      | .err err => .err err
      | .ok tl => .ok (s1, tl)

/-- `youtubeTranscript.listTranscripts`. -/
def listTranscripts {σ : Type} (http : Http σ)
    (jsonUnmarshal : String → Except Error (GoMap JSON)) (s : σ) (videoID : String) :
    GoResult (σ × TranscriptList) :=
  match TranscriptListFetcher.Fetch http jsonUnmarshal s videoID with
  | .panic => .panic
  | .err err => .err (.wrap "failed to fetch transcript list" err)
  | .ok r => .ok r

/-- `Transcript.Fetch`: both results of the Go function. -/
def Transcript.Fetch {σ F : Type} [Zero F] (http : Http σ) (lib : Libs F) (s : σ)
    (t : Transcript) (preserveFormatting : Bool) : List (ReturnTranscript F) × Option Error :=
  match http.NewRequest "GET" t.requestURL with
  | .error err => ([], some (.wrap "failed to create HTTP request" err))
  | .ok req =>
    match http.Do s { req with Header := mapSet req.Header "Accept-Language" "en-US" } with
    | (_, .error err) => ([], some (.wrap "failed to fetch transcript" err))
    | (_, .ok resp) =>
      if resp.StatusCode ≠ 200 then
        ([], some .ErrYoutubeRequestFailed)
      else
        match resp.Body with
        | .error err => ([], some (.wrap "failed to read response body" err))
        | .ok b => TranscriptParser.Parse lib { preserveFormatting := preserveFormatting } b

/-- The struct `options`. -/
structure options where
  lang : List String
  preserveFormatting : Bool
  deriving DecidableEq, Repr

/-- The struct `youtubeTranscript`. -/
structure youtubeTranscript where
  options : options
  deriving DecidableEq, Repr

/-- Outcome of a call with both results of the Go function kept: the value and the
error (`none` for nil), or a run-time abort. -/
inductive GoCall (α : Type) where
  | returned (value : α) (err : Option Error)
  | panic
  deriving Repr

/-- The verb `%s` of `fmt` applied to a `[]string`. -/
def fmtStrings (l : List String) : String :=
  "[" ++ " ".intercalate l ++ "]"

/-- `youtubeTranscript.GetTranscript`. -/
def youtubeTranscript.GetTranscript {σ F : Type} [Zero F] (http : Http σ)
    (jsonUnmarshal : String → Except Error (GoMap JSON)) (lib : Libs F)
    (yt : youtubeTranscript) (s : σ) (videoID : String) : GoCall String :=
  match listTranscripts http jsonUnmarshal s videoID with
  | .panic => .panic
  | .err err => .returned "" (some (.wrap "failed to list transcripts" err))
  | .ok (s1, transcripts) =>
    match FindTranscript transcripts yt.options.lang with
    | .panic => .panic
    | .err err =>
      .returned ""
        (some (.wrap ("failed to find transcripts for language " ++ fmtStrings yt.options.lang)
          err))
    | .ok transcript =>
      match transcript.Fetch http lib s1 yt.options.preserveFormatting with
      | (_, some err) => .returned "" (some (.wrap "failed to fetch transcript" err))
      | (captions, none) =>
        .returned (strings.Join (captions.map (fun caption => caption.Text)) " ") none

/-- The texts joined the way the specification words it: `s₁ + " " + … + sₙ`, the
empty string for no text. -/
def joinWithSpaces : List String → String
  | [] => ""
  | [s] => s
  | s :: t :: rest => s ++ " " ++ joinWithSpaces (t :: rest)

/-! ## The text handed to the JSON decoder -/

/-- The text of `s` before the first occurrence of `sep`; all of `s` when `sep` does
not occur. -/
def beforeFirst (sep s : List Char) : List Char :=
  match strings.indexAux sep s 0 with
  | none => s
  | some i => s.take i

/-- The text of `s` after the first occurrence of `sep`; empty when `sep` does not
occur. -/
def afterFirst (sep s : List Char) : List Char :=
  match strings.indexAux sep s 0 with
  | none => []
  | some i => s.drop (i + sep.length)

/-- The marker `"captions":`. -/
def captionsMarker : String := "\"captions\":"

/-- The marker `,"videoDetails`. -/
def videoDetailsMarker : String := ",\"videoDetails"

/-- The decoder input in the words of the specification: everything after the first
`"captions":`, cut at the next `,"videoDetails`, newlines removed. -/
def chunkAsClaimed (videoHTML : String) : String :=
  String.mk ((beforeFirst videoDetailsMarker.data
    (afterFirst captionsMarker.data videoHTML.data)).filter (fun c => c != '\n'))

/-- The text between the first `"captions":` and the next `"captions":` (or the end of
the page), cut at the first `,"videoDetails` in it, newlines removed. -/
def chunkBetweenMarkers (videoHTML : String) : String :=
  String.mk ((beforeFirst videoDetailsMarker.data
    (beforeFirst captionsMarker.data
      (afterFirst captionsMarker.data videoHTML.data))).filter (fun c => c != '\n'))

/-- What `extractCaptionsJSON` does with the result of `json.Unmarshal`. -/
def descend (decoded : Except Error (GoMap JSON)) : GoResult (GoMap JSON) :=
  match decoded with
  | .error e => .err (.wrap "failed to unmarshal captions JSON" e)
  | .ok captions =>
    match captions.lookup "playerCaptionsTracklistRenderer" with
    | some (.object renderer) =>
      if renderer.length = 0 then
        .err .ErrTranscriptDisabled
      else if (renderer.lookup "captionTracks").isNone then
        .err .ErrNoTranscriptFound
      else
        .ok renderer
    | _ => .panic

/-! ### Example transport, pages and manifests -/

/-- A client that answers the n-th request with the n-th response of the list, whatever
the request; its cookie jar is nil, as for `http.DefaultClient`. -/
def scriptedHttp (responses : List Response) : Http Nat :=
  { NewRequest := fun method url => .ok { Method := method, URL := url, Header := [] }
    Do := fun n _ =>
      (n + 1,
        match responses[n]? with
        | some r => .ok r
        | none => .error (.lib "connection refused"))
    SetCookies := fun _ _ _ => none }

/-- A decoder that knows the listed texts. -/
def tableDecoder (table : List (String × GoMap JSON)) : String → Except Error (GoMap JSON) :=
  fun text =>
    match table.lookup text with
    | some m => .ok m
    | none => .error (.lib "invalid character")

/-- A decoder that reports the text it was given. -/
def echoDecoder : String → Except Error (GoMap JSON) :=
  fun text => .error (.lib text)

/-- A consent page without a `name="v" value="…"` token. -/
def consentPageNoToken : String :=
  "<form action=\"https://consent.youtube.com/s\" method=\"POST\"></form>"

/-- The JSON text embedded in `watchPage`. -/
def watchChunk : String :=
  "\x7b\"playerCaptionsTracklistRenderer\":\x7b\"captionTracks\":[\x7b\"baseUrl\":\"u1\",\"name\":\x7b\"simpleText\":\"English\"\x7d,\"languageCode\":\"en\",\"isTranslatable\":true\x7d],\"translationLanguages\":[]\x7d\x7d"

/-- A watch page with one manual English track. -/
def watchPage : String :=
  "<html>\"captions\":" ++ watchChunk ++ ",\"videoDetails\":\x7b\x7d</html>"

/-- The value of `watchChunk`. -/
def watchManifest : GoMap JSON :=
  [("playerCaptionsTracklistRenderer",
    .object [("captionTracks", .array [trackJSON "u1" "English" "en" none]),
      ("translationLanguages", .array [])])]

/-- A watch page whose JSON has no `playerCaptionsTracklistRenderer`. -/
def pageNoRenderer : String := "<html>\"captions\":\x7b\"foo\":1\x7d,\"videoDetails\":\x7b\x7d</html>"

/-- A watch page whose `playerCaptionsTracklistRenderer` is an array. -/
def pageRendererArray : String :=
  "<html>\"captions\":\x7b\"playerCaptionsTracklistRenderer\":[]\x7d,\"videoDetails\":\x7b\x7d</html>"

/-- The decoder for the two pages above. -/
def shapeDecoder : String → Except Error (GoMap JSON) :=
  tableDecoder [("\x7b\"foo\":1\x7d", [("foo", .number 1)]),
    ("\x7b\"playerCaptionsTracklistRenderer\":[]\x7d",
      [("playerCaptionsTracklistRenderer", .array [])])]

/-- A watch page in which `"captions":` occurs a second time, inside the JSON. -/
def pageTwoMarkers : String :=
  "<html>\"captions\":\x7b\"k\":\x7b\"captions\":1\x7d\x7d,\"videoDetails\":\x7b\x7d</html>"

/-- The document of the end-to-end example of the specification. -/
def docHello : String :=
  "<transcript><text start=\"0.5\" dur=\"2.3\">Hello &amp; welcome</text></transcript>"

/-- The tree of `docHello`. -/
def rootHello : Element :=
  transcriptRoot [leaf "text" [("start", "0.5"), ("dur", "2.3")] "Hello &amp; welcome"]

/-- A document whose `text` element holds `&amp;amp;`. -/
def docAmpAmp : String := "<transcript><text>&amp;amp;</text></transcript>"

/-- The tree of `docAmpAmp`. -/
def rootAmpAmp : Element := transcriptRoot [leaf "text" [] "&amp;amp;"]

/-- A document with two `text` elements. -/
def docHelloBye : String :=
  "<transcript><text start=\"0.5\" dur=\"2.3\">Hello &amp; welcome</text><text start=\"7\">bye</text></transcript>"

/-- The tree of `docHelloBye`. -/
def rootHelloBye : Element :=
  transcriptRoot [leaf "text" [("start", "0.5"), ("dur", "2.3")] "Hello &amp; welcome",
    leaf "text" [("start", "7")] "bye"]

/-- The last attribute of the list with the given local name. -/
def lastAttr (name : String) (attrs : List Attr) : Option Attr :=
  (attrs.filter (fun a => decide (a.Name.Local = name))).getLast?

/-- The caption tracks of `manifestEnEn`. -/
def tracksEnEn : List JSON :=
  [trackJSON "u1" "English" "en" none,
   trackJSON "u2" "English (auto-generated)" "en" (some "asr"),
   trackJSON "u3" "English (UK)" "en" none]

/-- The translation languages of `manifestEnEn`. -/
def translationsFr : List JSON :=
  [.object [("languageCode", .string "fr"),
    ("languageName", .object [("simpleText", .string "French")])]]

/-- The track that `NewTranscriptList` builds from the track of `watchManifest`. -/
def trackU1 : Transcript :=
  { videoID := "vid", requestURL := "u1", language := "English", languageCode := "en",
    isGenerated := false, transltionLanguages := .bool true }

/-- The catalog of `watchManifest`. -/
def catalogU1 : TranscriptList :=
  { VideoID := "vid",
    ManuallyCreatedTranscripts := [("en", .transcript trackU1)],
    GeneratedTranscripts := [],
    Translationlanguages := [] }

/-! ### Decimal numbers, and two more documents -/

/-- The text without a leading sign. -/
def dropSign : List Char → List Char
  | '+' :: rest => rest
  | '-' :: rest => rest
  | l => l

/-- A non-empty run of decimal digits. -/
def isDigits (l : List Char) : Bool :=
  !l.isEmpty && l.all (fun c => '0' ≤ c && c ≤ '9')

/-- Decimal digits with at most one point and at least one digit. -/
def isMantissa (l : List Char) : Bool :=
  l.all (fun c => ('0' ≤ c && c ≤ '9') || c == '.') && decide (l.count '.' ≤ 1) &&
    l.any (fun c => '0' ≤ c && c ≤ '9')

/-- A valid decimal number, in the words of the claim on malformed attributes: an
optional sign, decimal digits with an optional point, and an optional decimal exponent
(`e` or `E`, an optional sign, digits). -/
def isDecimalNumber (s : String) : Bool :=
  let body := dropSign s.data
  let mantissa := body.takeWhile (fun c => c != 'e' && c != 'E')
  isMantissa mantissa &&
    (match body.dropWhile (fun c => c != 'e' && c != 'E') with
      | [] => true
      | _ :: exponent => isDigits (dropSign exponent))

/-- A document whose `text` element has `dur="0x1p-2"`. -/
def docHexDur : String :=
  "<transcript><text start=\"0.5\" dur=\"0x1p-2\">one</text></transcript>"

/-- The tree of `docHexDur`. -/
def rootHexDur : Element :=
  transcriptRoot [leaf "text" [("start", "0.5"), ("dur", "0x1p-2")] "one"]

/-- A document whose `text` element has bold text. -/
def docBold : String :=
  "<transcript><text start=\"0.5\" dur=\"2.3\"><b>hi</b> there</text></transcript>"

/-- The tree of `docBold`: the content of `text` is its raw inner text. -/
def rootBold : Element :=
  transcriptRoot [.mk { Space := "", Local := "text" }
    [{ Name := { Space := "", Local := "start" }, Value := "0.5" },
     { Name := { Space := "", Local := "dur" }, Value := "2.3" }]
    "<b>hi</b> there" [leaf "b" [] "hi"]]

/-! ## Lemmas on `FindTranscript` -/

theorem findInDicts_pair (c : String) (m g : GoMap Any) :
    findInDicts c [m, g] = (m.lookup c).orElse (fun _ => g.lookup c) := by
  cases hm : m.lookup c <;> cases hg : g.lookup c <;> simp [findInDicts, hm, hg]

theorem findInDicts_none_iff (tl : TranscriptList) (c : String) :
    findInDicts c [tl.ManuallyCreatedTranscripts, tl.GeneratedTranscripts] = none ↔
      isKey tl c = false := by
  rw [findInDicts_pair]
  cases hm : tl.ManuallyCreatedTranscripts.lookup c <;>
    cases hg : tl.GeneratedTranscripts.lookup c <;> simp [isKey, hm, hg]

theorem FindTranscript_cons_of_not_key (tl : TranscriptList) (d : String) (rest : List String)
    (hd : isKey tl d = false) : FindTranscript tl (d :: rest) = FindTranscript tl rest := by
  have h := (findInDicts_none_iff tl d).mpr hd
  simp [FindTranscript, h]

theorem FindTranscript_skip_prefix (tl : TranscriptList) (pre rest : List String)
    (hpre : ∀ d ∈ pre, isKey tl d = false) :
    FindTranscript tl (pre ++ rest) = FindTranscript tl rest := by
  induction pre with
  | nil => rfl
  | cons d pre ih =>
    have hd : isKey tl d = false := hpre d (List.mem_cons_self d pre)
    have hrest : ∀ e ∈ pre, isKey tl e = false :=
      fun e he => hpre e (List.mem_cons_of_mem d he)
    rw [List.cons_append, FindTranscript_cons_of_not_key tl d _ hd]
    exact ih hrest

theorem isKey_false_iff (tl : TranscriptList) (c : String) :
    isKey tl c = false ↔
      tl.ManuallyCreatedTranscripts.lookup c = none ∧
        tl.GeneratedTranscripts.lookup c = none := by
  cases hm : tl.ManuallyCreatedTranscripts.lookup c <;>
    cases hg : tl.GeneratedTranscripts.lookup c <;> simp [isKey, hm, hg]

/-! ## C1 – C3: language-preference search -/

/-- C1: when `FindTranscript` succeeds with track `t`, the preference list splits as
`pre ++ c :: post` where no code of `pre` is a key of either partition, `c` is a key,
and `t` is stored under `c` in the manual or in the generated partition. So the first
matching code decides, whatever partitions later codes are found in. -/
theorem FindTranscript_ok_first_key (tl : TranscriptList) (codes : List String)
    (t : Transcript) (h : FindTranscript tl codes = .ok t) :
    ∃ pre c post, codes = pre ++ c :: post ∧
      (∀ d ∈ pre, tl.ManuallyCreatedTranscripts.lookup d = none ∧
        tl.GeneratedTranscripts.lookup d = none) ∧
      (tl.ManuallyCreatedTranscripts.lookup c = some (.transcript t) ∨
        tl.GeneratedTranscripts.lookup c = some (.transcript t)) := by
  induction codes with
  | nil => simp [FindTranscript] at h
  | cons c rest ih =>
    by_cases hk : isKey tl c = false
    · rw [FindTranscript_cons_of_not_key tl c rest hk] at h
      obtain ⟨pre, c', post, hsplit, hpre, hc⟩ := ih h
      refine ⟨c :: pre, c', post, by simp [hsplit], ?_, hc⟩
      intro d hd
      rcases List.mem_cons.mp hd with rfl | hd
      · exact (isKey_false_iff tl d).mp hk
      · exact hpre d hd
    · refine ⟨[], c, rest, rfl, by simp, ?_⟩
      rw [FindTranscript.eq_2, findInDicts_pair] at h
      cases hm : tl.ManuallyCreatedTranscripts.lookup c with
      | some v =>
        rw [hm] at h
        cases v with
        | transcript t' =>
          simp at h
          subst h
          exact Or.inl rfl
        | other j => simp at h
      | none =>
        rw [hm] at h
        cases hg : tl.GeneratedTranscripts.lookup c with
        | some v =>
          rw [hg] at h
          cases v with
          | transcript t' =>
            simp at h
            subst h
            exact Or.inr rfl
          | other j => simp at h
        | none =>
          exact absurd ((isKey_false_iff tl c).mpr ⟨hm, hg⟩) hk

/-- C1, on the catalog with manual "en" and generated "fr": the preference list
`["fr", "en"]` yields the generated "fr" track. -/
theorem FindTranscript_ok_first_key_witness :
    FindTranscript catalogEnFr ["fr", "en"] = .ok (sampleTrack "fr" true) ∧
    ∃ pre c post, ["fr", "en"] = pre ++ c :: post ∧
      (∀ d ∈ pre, catalogEnFr.ManuallyCreatedTranscripts.lookup d = none ∧
        catalogEnFr.GeneratedTranscripts.lookup d = none) ∧
      (catalogEnFr.ManuallyCreatedTranscripts.lookup c
          = some (.transcript (sampleTrack "fr" true)) ∨
        catalogEnFr.GeneratedTranscripts.lookup c
          = some (.transcript (sampleTrack "fr" true))) :=
  ⟨rfl, FindTranscript_ok_first_key catalogEnFr ["fr", "en"] (sampleTrack "fr" true) rfl⟩

/-- C2: let `c` be the first code of the preference list that is a key of either
partition (no code of `pre` is a key). If the manual partition stores track `t` under
`c`, `FindTranscript` returns `t`, whatever the generated partition holds; if the manual
partition has no entry for `c` and the generated one stores `t`, it returns `t`; and
whenever the manual partition has an entry for `c`, a successful search returns that
entry, never the generated one. -/
theorem FindTranscript_manual_before_generated (tl : TranscriptList)
    (pre post : List String) (c : String)
    (hpre : ∀ d ∈ pre, tl.ManuallyCreatedTranscripts.lookup d = none ∧
      tl.GeneratedTranscripts.lookup d = none) :
    (∀ t, tl.ManuallyCreatedTranscripts.lookup c = some (.transcript t) →
        FindTranscript tl (pre ++ c :: post) = .ok t) ∧
    (∀ t, tl.ManuallyCreatedTranscripts.lookup c = none →
        tl.GeneratedTranscripts.lookup c = some (.transcript t) →
        FindTranscript tl (pre ++ c :: post) = .ok t) ∧
    (∀ t v, tl.ManuallyCreatedTranscripts.lookup c = some v →
        FindTranscript tl (pre ++ c :: post) = .ok t → v = .transcript t) := by
  have hskip : FindTranscript tl (pre ++ c :: post) = FindTranscript tl (c :: post) :=
    FindTranscript_skip_prefix tl pre _ (fun d hd => (isKey_false_iff tl d).mpr (hpre d hd))
  rw [hskip, FindTranscript.eq_2, findInDicts_pair]
  refine ⟨?_, ?_, ?_⟩
  · intro t hm
    simp [hm]
  · intro t hm hg
    simp [hm, hg]
  · intro t v hm h
    rw [hm] at h
    cases v with
    | transcript t' =>
      simp at h
      rw [h]
    | other j => simp at h

/-- C2, on the catalog with a manual and a generated "en" track: `["en"]` yields the
manual one. -/
theorem FindTranscript_manual_before_generated_witness :
    FindTranscript catalogEnEn ([] ++ "en" :: []) = .ok (sampleTrack "en" false) :=
  (FindTranscript_manual_before_generated catalogEnEn [] [] "en"
    (by intro d hd; cases hd)).1 (sampleTrack "en" false) rfl

/-- C3: `FindTranscript` fails with `ErrNoTranscriptFound` exactly when no code of the
preference list is a key of the manual or of the generated partition; on the empty
list it fails so for every catalog. -/
theorem FindTranscript_not_found_iff (tl : TranscriptList) (codes : List String) :
    (FindTranscript tl codes = .err .ErrNoTranscriptFound ↔
      ∀ c ∈ codes, tl.ManuallyCreatedTranscripts.lookup c = none ∧
        tl.GeneratedTranscripts.lookup c = none) ∧
    FindTranscript tl [] = .err .ErrNoTranscriptFound := by
  refine ⟨?_, rfl⟩
  induction codes with
  | nil => simp [FindTranscript]
  | cons c rest ih =>
    by_cases hk : isKey tl c = false
    · rw [FindTranscript_cons_of_not_key tl c rest hk, ih, List.forall_mem_cons]
      have hc := (isKey_false_iff tl c).mp hk
      exact ⟨fun h => ⟨hc, h⟩, fun h => h.2⟩
    · have hne : ¬ (tl.ManuallyCreatedTranscripts.lookup c = none ∧
          tl.GeneratedTranscripts.lookup c = none) :=
        fun hc => hk ((isKey_false_iff tl c).mpr hc)
      have hfind : findInDicts c [tl.ManuallyCreatedTranscripts, tl.GeneratedTranscripts]
          ≠ none := fun hn => hk ((findInDicts_none_iff tl c).mp hn)
      constructor
      · intro h
        rw [FindTranscript.eq_2] at h
        cases hf : findInDicts c [tl.ManuallyCreatedTranscripts, tl.GeneratedTranscripts] with
        | none => exact absurd hf hfind
        | some v =>
          rw [hf] at h
          cases v <;> simp at h
      · intro h
        exact absurd (h c (List.mem_cons_self c rest)) hne

/-! ## C4: the page has no `"captions":` marker -/

theorem Split_length_of_not_Contains (s sep : String)
    (h : strings.Contains s sep = false) : (strings.Split s sep).length ≤ 1 := by
  have hidx : strings.indexAux sep.data s.data 0 = none := by
    simpa [strings.Contains, strings.Index] using h
  simp [strings.Split, strings.splitAux, hidx]

/-- C4: on a page without the marker `"captions":`, `extractCaptionsJSON` fails with
`ErrInvalidVideoID` if the video ID starts with `http://` or `https://`; otherwise
with `ErrTooManyRequests` if the page has the CAPTCHA marker (whether or not
`"playabilityStatus":` occurs); otherwise with `ErrVideoUnavailable` if the page
lacks `"playabilityStatus":`; otherwise with `ErrTranscriptDisabled`. -/
theorem extractCaptionsJSON_marker_absent
    (jsonUnmarshal : String → Except Error (GoMap JSON)) (videoHTML videoID : String)
    (h : strings.Contains videoHTML "\"captions\":" = false) :
    ((strings.HasPrefix videoID "http://" = true ∨
        strings.HasPrefix videoID "https://" = true) →
      extractCaptionsJSON jsonUnmarshal videoHTML videoID = .err .ErrInvalidVideoID) ∧
    (strings.HasPrefix videoID "http://" = false →
      strings.HasPrefix videoID "https://" = false →
      strings.Contains videoHTML "class=\"g-recaptcha" = true →
      extractCaptionsJSON jsonUnmarshal videoHTML videoID = .err .ErrTooManyRequests) ∧
    (strings.HasPrefix videoID "http://" = false →
      strings.HasPrefix videoID "https://" = false →
      strings.Contains videoHTML "class=\"g-recaptcha" = false →
      strings.Contains videoHTML "\"playabilityStatus\":" = false →
      extractCaptionsJSON jsonUnmarshal videoHTML videoID = .err .ErrVideoUnavailable) ∧
    (strings.HasPrefix videoID "http://" = false →
      strings.HasPrefix videoID "https://" = false →
      strings.Contains videoHTML "class=\"g-recaptcha" = false →
      strings.Contains videoHTML "\"playabilityStatus\":" = true →
      extractCaptionsJSON jsonUnmarshal videoHTML videoID = .err .ErrTranscriptDisabled) := by
  have hlen := Split_length_of_not_Contains videoHTML "\"captions\":" h
  refine ⟨?_, ?_, ?_, ?_⟩
  · intro hurl
    rcases hurl with hurl | hurl <;> simp [extractCaptionsJSON, hlen, hurl]
  · intro h1 h2 h3
    simp [extractCaptionsJSON, hlen, h1, h2, h3]
  · intro h1 h2 h3 h4
    simp [extractCaptionsJSON, hlen, h1, h2, h3, h4]
  · intro h1 h2 h3 h4
    simp [extractCaptionsJSON, hlen, h1, h2, h3, h4]

/-- C4, on a CAPTCHA page that has neither `"captions":` nor `"playabilityStatus":`:
the error is `ErrTooManyRequests`. -/
theorem extractCaptionsJSON_marker_absent_witness :
    strings.Contains captchaPage "\"captions\":" = false ∧
    strings.Contains captchaPage "\"playabilityStatus\":" = false ∧
    extractCaptionsJSON rejectJSON captchaPage "n8_nJGg0dEc" = .err .ErrTooManyRequests :=
  ⟨by decide, by decide,
    (extractCaptionsJSON_marker_absent rejectJSON captchaPage "n8_nJGg0dEc"
      (by decide)).2.1 (by decide) (by decide) (by decide)⟩

/-! ## Lemmas on the attribute loop -/

section AttrLoop

variable {F : Type} (pf : String → Except Error F)

theorem parseAttrs_start_ok (a : Attr) (rest : List Attr) (s d v : F)
    (hs : a.Name.Local = "start") (hp : pf a.Value = .ok v) :
    parseAttrs pf (a :: rest) s d = parseAttrs pf rest v d := by
  have hd : ¬ a.Name.Local = "dur" := by rw [hs]; decide
  simp [parseAttrs, hs, hp]

theorem parseAttrs_start_error (a : Attr) (rest : List Attr) (s d : F) (c : Error)
    (hs : a.Name.Local = "start") (hp : pf a.Value = .error c) :
    parseAttrs pf (a :: rest) s d = .error (.wrap "failed to parse start" c) := by
  simp [parseAttrs, hs, hp]

theorem parseAttrs_dur_ok (a : Attr) (rest : List Attr) (s d v : F)
    (hd : a.Name.Local = "dur") (hp : pf a.Value = .ok v) :
    parseAttrs pf (a :: rest) s d = parseAttrs pf rest s v := by
  have hs : ¬ a.Name.Local = "start" := by rw [hd]; decide
  simp [parseAttrs, hd, hp]

theorem parseAttrs_dur_error (a : Attr) (rest : List Attr) (s d : F) (c : Error)
    (hd : a.Name.Local = "dur") (hp : pf a.Value = .error c) :
    parseAttrs pf (a :: rest) s d = .error (.wrap "failed to parse duration" c) := by
  have hs : ¬ a.Name.Local = "start" := by rw [hd]; decide
  simp [parseAttrs, hd, hp]

theorem parseAttrs_other (a : Attr) (rest : List Attr) (s d : F)
    (hs : ¬ a.Name.Local = "start") (hd : ¬ a.Name.Local = "dur") :
    parseAttrs pf (a :: rest) s d = parseAttrs pf rest s d := by
  simp [parseAttrs, hs, hd]

/-- An error of the attribute loop is the wrapped failure of one of the attributes. -/
theorem parseAttrs_error (attrs : List Attr) (s d : F) (e : Error)
    (h : parseAttrs pf attrs s d = .error e) : IsAttrFailure pf attrs e := by
  induction attrs generalizing s d with
  | nil => simp [parseAttrs] at h
  | cons a rest ih =>
    have lift : IsAttrFailure pf rest e → IsAttrFailure pf (a :: rest) e := by
      rintro ⟨a', ha', c, hc, hform⟩
      exact ⟨a', List.mem_cons_of_mem a ha', c, hc, hform⟩
    by_cases hs : a.Name.Local = "start"
    · cases hp : pf a.Value with
      | error c =>
        rw [parseAttrs_start_error pf a rest s d c hs hp] at h
        injection h with h
        exact ⟨a, List.mem_cons_self a rest, c, hp, Or.inl ⟨hs, h.symm⟩⟩
      | ok v =>
        rw [parseAttrs_start_ok pf a rest s d v hs hp] at h
        exact lift (ih v d h)
    · by_cases hd : a.Name.Local = "dur"
      · cases hp : pf a.Value with
        | error c =>
          rw [parseAttrs_dur_error pf a rest s d c hd hp] at h
          injection h with h
          exact ⟨a, List.mem_cons_self a rest, c, hp, Or.inr ⟨hd, h.symm⟩⟩
        | ok v =>
          rw [parseAttrs_dur_ok pf a rest s d v hd hp] at h
          exact lift (ih s v h)
      · rw [parseAttrs_other pf a rest s d hs hd] at h
        exact lift (ih s d h)

/-- A rejected `start` or `dur` value makes the attribute loop fail. -/
theorem parseAttrs_error_of_bad (attrs : List Attr) (s d : F)
    (hbad : ∃ a ∈ attrs, (a.Name.Local = "start" ∨ a.Name.Local = "dur") ∧
      ∃ c, pf a.Value = .error c) :
    ∃ e, parseAttrs pf attrs s d = .error e := by
  induction attrs generalizing s d with
  | nil =>
    obtain ⟨a, ha, _⟩ := hbad
    cases ha
  | cons a rest ih =>
    have tail : (¬ ((a.Name.Local = "start" ∨ a.Name.Local = "dur") ∧
        ∃ c, pf a.Value = .error c)) →
        ∃ a' ∈ rest, (a'.Name.Local = "start" ∨ a'.Name.Local = "dur") ∧
          ∃ c, pf a'.Value = .error c := by
      intro hna
      obtain ⟨a', ha', hname, hc⟩ := hbad
      rcases List.mem_cons.mp ha' with rfl | hmem
      · exact absurd ⟨hname, hc⟩ hna
      · exact ⟨a', hmem, hname, hc⟩
    by_cases hs : a.Name.Local = "start"
    · cases hp : pf a.Value with
      | error c => exact ⟨_, parseAttrs_start_error pf a rest s d c hs hp⟩
      | ok v =>
        rw [parseAttrs_start_ok pf a rest s d v hs hp]
        exact ih v d (tail (by rintro ⟨_, c, hc⟩; rw [hp] at hc; cases hc))
    · by_cases hd : a.Name.Local = "dur"
      · cases hp : pf a.Value with
        | error c => exact ⟨_, parseAttrs_dur_error pf a rest s d c hd hp⟩
        | ok v =>
          rw [parseAttrs_dur_ok pf a rest s d v hd hp]
          exact ih s v (tail (by rintro ⟨_, c, hc⟩; rw [hp] at hc; cases hc))
      · rw [parseAttrs_other pf a rest s d hs hd]
        exact ih s d (tail (by rintro ⟨hname, _⟩; rcases hname with h | h <;> contradiction))

/-- Without a `start` attribute the loop hands back the initial start value. -/
theorem parseAttrs_no_start (attrs : List Attr) (s d s' d' : F)
    (hno : ∀ a ∈ attrs, a.Name.Local ≠ "start")
    (h : parseAttrs pf attrs s d = .ok (s', d')) : s' = s := by
  induction attrs generalizing s d with
  | nil =>
    simp [parseAttrs] at h
    exact h.1.symm
  | cons a rest ih =>
    have hs : ¬ a.Name.Local = "start" := hno a (List.mem_cons_self a rest)
    have hrest : ∀ x ∈ rest, x.Name.Local ≠ "start" :=
      fun x hx => hno x (List.mem_cons_of_mem a hx)
    by_cases hd : a.Name.Local = "dur"
    · cases hp : pf a.Value with
      | error c =>
        rw [parseAttrs_dur_error pf a rest s d c hd hp] at h
        cases h
      | ok v =>
        rw [parseAttrs_dur_ok pf a rest s d v hd hp] at h
        exact ih s v hrest h
    · rw [parseAttrs_other pf a rest s d hs hd] at h
      exact ih s d hrest h

/-- Without a `dur` attribute the loop hands back the initial duration value. -/
theorem parseAttrs_no_dur (attrs : List Attr) (s d s' d' : F)
    (hno : ∀ a ∈ attrs, a.Name.Local ≠ "dur")
    (h : parseAttrs pf attrs s d = .ok (s', d')) : d' = d := by
  induction attrs generalizing s d with
  | nil =>
    simp [parseAttrs] at h
    exact h.2.symm
  | cons a rest ih =>
    have hd : ¬ a.Name.Local = "dur" := hno a (List.mem_cons_self a rest)
    have hrest : ∀ x ∈ rest, x.Name.Local ≠ "dur" :=
      fun x hx => hno x (List.mem_cons_of_mem a hx)
    by_cases hs : a.Name.Local = "start"
    · cases hp : pf a.Value with
      | error c =>
        rw [parseAttrs_start_error pf a rest s d c hs hp] at h
        cases h
      | ok v =>
        rw [parseAttrs_start_ok pf a rest s d v hs hp] at h
        exact ih v d hrest h
    · rw [parseAttrs_other pf a rest s d hs hd] at h
      exact ih s d hrest h

end AttrLoop

/-! ## Lemmas on the loop over the children -/

section ChildLoop

variable {F : Type} [Zero F] (lib : Libs F) (re : Re)

theorem segmentOf_error_iff (x : Element) (e : Error) :
    segmentOf lib re x = .error e ↔ parseAttrs lib.ParseFloat x.Attr 0 0 = .error e := by
  unfold segmentOf
  cases h : parseAttrs lib.ParseFloat x.Attr 0 0 with
  | error c => simp
  | ok r => simp

theorem segmentOf_ok_iff (x : Element) (seg : ReturnTranscript F) :
    segmentOf lib re x = .ok seg ↔
      seg.Text = re.ReplaceAllString (lib.UnescapeString x.Content) "" ∧
        parseAttrs lib.ParseFloat x.Attr 0 0 = .ok (seg.Start, seg.Duration) := by
  unfold segmentOf
  cases h : parseAttrs lib.ParseFloat x.Attr 0 0 with
  | error c => simp
  | ok r =>
    obtain ⟨s, d⟩ := r
    cases seg with
    | mk text start dur =>
      simp only [Except.ok.injEq, ReturnTranscript.mk.injEq, Prod.mk.injEq]
      constructor
      · rintro ⟨h1, h2, h3⟩
        exact ⟨h1.symm, h2, h3⟩
      · rintro ⟨h1, h2, h3⟩
        exact ⟨h1.symm, h2, h3⟩

theorem filter_text_cons_pos (x : Element) (rest : List Element)
    (hx : x.Name.Local = "text") :
    (x :: rest).filter (fun e => decide (e.Name.Local = "text")) =
      x :: rest.filter (fun e => decide (e.Name.Local = "text")) := by
  simp [List.filter, hx]

theorem filter_text_cons_neg (x : Element) (rest : List Element)
    (hx : ¬ x.Name.Local = "text") :
    (x :: rest).filter (fun e => decide (e.Name.Local = "text")) =
      rest.filter (fun e => decide (e.Name.Local = "text")) := by
  simp [List.filter, hx]

/-- A successful loop appends one segment per `text` child, in order. -/
theorem parseChildren_ok (cs : List Element) (acc out : List (ReturnTranscript F))
    (h : parseChildren lib re cs acc = .ok out) :
    ∃ segs, out = acc ++ segs ∧
      List.Forall₂ (fun e seg => segmentOf lib re e = .ok seg)
        (cs.filter (fun e => decide (e.Name.Local = "text"))) segs := by
  induction cs generalizing acc with
  | nil =>
    simp only [parseChildren, Except.ok.injEq] at h
    exact ⟨[], by simp [h], by simp⟩
  | cons x rest ih =>
    by_cases hx : x.Name.Local = "text"
    · rw [filter_text_cons_pos x rest hx]
      cases hseg : segmentOf lib re x with
      | error c => simp [parseChildren, hx, hseg] at h
      | ok seg =>
        simp only [parseChildren, hx, hseg, if_true] at h
        obtain ⟨segs, hout, hall⟩ := ih (acc ++ [seg]) h
        exact ⟨seg :: segs, by simp [hout], List.Forall₂.cons hseg hall⟩
    · rw [filter_text_cons_neg x rest hx]
      simp only [parseChildren, hx, if_false] at h
      exact ih acc h

/-- A failing loop reports the failure of one of the `text` children. -/
theorem parseChildren_error (cs : List Element) (acc : List (ReturnTranscript F))
    (e : Error) (h : parseChildren lib re cs acc = .error e) :
    ∃ x ∈ cs.filter (fun e => decide (e.Name.Local = "text")),
      segmentOf lib re x = .error e := by
  induction cs generalizing acc with
  | nil => simp [parseChildren] at h
  | cons x rest ih =>
    by_cases hx : x.Name.Local = "text"
    · rw [filter_text_cons_pos x rest hx]
      cases hseg : segmentOf lib re x with
      | error c =>
        simp only [parseChildren, hx, hseg, if_true, Except.error.injEq] at h
        exact ⟨x, List.mem_cons_self _ _, by rw [hseg, h]⟩
      | ok seg =>
        simp only [parseChildren, hx, hseg, if_true] at h
        obtain ⟨y, hy, hyerr⟩ := ih (acc ++ [seg]) h
        exact ⟨y, List.mem_cons_of_mem _ hy, hyerr⟩
    · rw [filter_text_cons_neg x rest hx]
      simp only [parseChildren, hx, if_false] at h
      exact ih acc h

/-- Corresponding entries of two lists related by `Forall₂`. -/
theorem forall₂_getElem? {α β : Type} {R : α → β → Prop} {l₁ : List α} {l₂ : List β}
    (h : List.Forall₂ R l₁ l₂) (i : Nat) (a : α) (ha : l₁[i]? = some a) :
    ∃ b, l₂[i]? = some b ∧ R a b := by
  induction h generalizing i with
  | nil => simp at ha
  | cons hab _ ih =>
    cases i with
    | zero =>
      simp only [List.getElem?_cons_zero, Option.some.injEq] at ha
      subst ha
      exact ⟨_, by simp, hab⟩
    | succ j =>
      simp only [List.getElem?_cons_succ] at ha
      obtain ⟨b, hb, hR⟩ := ih j ha
      exact ⟨b, by simpa using hb, hR⟩

/-- `Parse` on a document the XML reader accepts: either the loop succeeds and
its slice is returned, or it fails and the slice is nil. -/
theorem Parse_of_xml (t : TranscriptParser) (b : String) (root : Element)
    (hxml : lib.xmlParse b = .ok root) :
    t.Parse lib b =
      match parseChildren lib t.getHTMLRegex root.Children [] with
      | .error e => ([], some e)
      | .ok transcript => (transcript, none) := by
  simp [TranscriptParser.Parse, hxml]

/-- On a document with well-formed numbers `Parse` succeeds with one segment per
`text` child of the root, in order. -/
theorem Parse_valid (t : TranscriptParser) (b : String) (root : Element)
    (hxml : lib.xmlParse b = .ok root) (hvalid : ValidNumbers lib root) :
    ∃ segs, t.Parse lib b = (segs, none) ∧
      List.Forall₂ (fun e seg => segmentOf lib t.getHTMLRegex e = .ok seg)
        (textChildren root) segs := by
  rw [Parse_of_xml lib t b root hxml]
  cases hloop : parseChildren lib t.getHTMLRegex root.Children [] with
  | error e =>
    exfalso
    obtain ⟨x, hx, hseg⟩ := parseChildren_error lib _ _ _ e hloop
    obtain ⟨a, ha, c, hc, hname⟩ :=
      parseAttrs_error lib.ParseFloat x.Attr 0 0 e ((segmentOf_error_iff lib _ x e).mp hseg)
    have hname' : a.Name.Local = "start" ∨ a.Name.Local = "dur" := by
      rcases hname with h | h
      · exact Or.inl h.1
      · exact Or.inr h.1
    obtain ⟨v, hv⟩ := hvalid x hx a ha hname'
    rw [hc] at hv
    cases hv
  | ok out =>
    obtain ⟨segs, hout, hall⟩ := parseChildren_ok lib _ _ _ out hloop
    refine ⟨out, rfl, ?_⟩
    simp only [List.nil_append] at hout
    rw [hout]
    exact hall

end ChildLoop

/-! ## Facts about the example documents -/

theorem validNumbers_rootEscaped :
    ValidNumbers (sampleLib docEscaped rootEscaped) rootEscaped := by
  intro e he a ha _
  simp only [textChildren, rootEscaped, transcriptRoot, leaf, Element.Children] at he
  rcases List.mem_filter.mp he with ⟨hmem, _⟩
  simp only [List.mem_singleton] at hmem
  subst hmem
  simp only [Element.Attr, List.map, List.mem_cons, List.mem_singleton] at ha
  have hnil : ¬ a ∈ ([] : List Attr) := List.not_mem_nil a
  rcases ha with rfl | rfl | h
  · exact ⟨1 / 2, rfl⟩
  · exact ⟨23 / 10, rfl⟩
  · exact absurd h hnil

theorem validNumbers_rootMixed :
    ValidNumbers (sampleLib docMixed rootMixed) rootMixed := by
  intro e he a ha _
  simp only [textChildren, rootMixed, transcriptRoot, leaf, Element.Children] at he
  rcases List.mem_filter.mp he with ⟨hmem, _⟩
  simp only [List.mem_cons, List.mem_singleton] at hmem
  have hnil : ¬ a ∈ ([] : List Attr) := List.not_mem_nil a
  rcases hmem with rfl | rfl | rfl | h
  · simp only [Element.Attr, List.map, List.mem_cons] at ha
    rcases ha with rfl | rfl | h
    · exact ⟨1 / 2, rfl⟩
    · exact ⟨23 / 10, rfl⟩
    · exact absurd h hnil
  · simp only [Element.Attr, List.map] at ha
    exact absurd ha hnil
  · simp only [Element.Attr, List.map] at ha
    exact absurd ha hnil
  · exact absurd h (List.not_mem_nil e)

/-! ## C5 – C7: formatting tags -/

/-- C5: evaluation of `Parse` with preserveFormatting=false on the document
`<transcript><text><strong>hi</strong> there</text></transcript>`. The segment text is
`<strong>hi</strong> there`: neither the open nor the close form of `strong` is
removed, since the pattern of `getHTMLRegex` asks for a `!` right after `<` or `</`. -/
theorem Parse_keeps_strong_tags :
    TranscriptParser.Parse (sampleLib docStrong rootStrong) { preserveFormatting := false }
        docStrong
      = ([{ Text := "<strong>hi</strong> there", Start := 0, Duration := 0 }], none) := by
  rfl

/-- C6: evaluation of `Parse` with preserveFormatting=true on the document
`<transcript><text>&lt;!b&gt;x</text></transcript>`. The unescaped content is `<!b>x`
and the segment text is `x`: the match `<!b>` of the pattern is removed although
formatting is to be preserved. -/
theorem Parse_preserve_removes_match :
    (sampleLib docBang rootBang).UnescapeString "&lt;!b&gt;x" = "<!b>x" ∧
    TranscriptParser.Parse (sampleLib docBang rootBang) { preserveFormatting := true } docBang
      = ([{ Text := "x", Start := 0, Duration := 0 }], none) := by
  exact ⟨rfl, rfl⟩

/-- C7: in a document with well-formed numbers, a `text` element whose raw content is
`&lt;strong&gt;x&lt;/strong&gt;` (which `html.UnescapeString` turns into
`<strong>x</strong>`) yields, with preserveFormatting=false, a segment whose text is
`<strong>x</strong>`: nothing is stripped. -/
theorem Parse_escaped_tags_not_stripped {F : Type} [Zero F] (lib : Libs F) (b : String)
    (root : Element) (hxml : lib.xmlParse b = .ok root) (hvalid : ValidNumbers lib root)
    (hunescape : lib.UnescapeString "&lt;strong&gt;x&lt;/strong&gt;" = "<strong>x</strong>") :
    ∃ segs, TranscriptParser.Parse lib { preserveFormatting := false } b = (segs, none) ∧
      ∀ (i : Nat) (e : Element), (textChildren root)[i]? = some e →
        e.Content = "&lt;strong&gt;x&lt;/strong&gt;" →
        ∃ seg, segs[i]? = some seg ∧ seg.Text = "<strong>x</strong>" := by
  obtain ⟨segs, hparse, hall⟩ := Parse_valid lib { preserveFormatting := false } b root hxml hvalid
  refine ⟨segs, hparse, ?_⟩
  intro i e he hcontent
  obtain ⟨seg, hseg, hfrom⟩ := forall₂_getElem? hall i e he
  refine ⟨seg, hseg, ?_⟩
  have htext := ((segmentOf_ok_iff lib _ e seg).mp hfrom).1
  rw [htext, hcontent, hunescape]
  rfl

/-- C7, on the document
`<transcript><text start="0.5" dur="2.3">&lt;strong&gt;x&lt;/strong&gt;</text></transcript>`. -/
theorem Parse_escaped_tags_not_stripped_witness :
    TranscriptParser.Parse (sampleLib docEscaped rootEscaped) { preserveFormatting := false }
        docEscaped
      = ([{ Text := "<strong>x</strong>", Start := 1 / 2, Duration := 23 / 10 }], none) ∧
    ∃ segs, TranscriptParser.Parse (sampleLib docEscaped rootEscaped)
        { preserveFormatting := false } docEscaped = (segs, none) ∧
      ∀ (i : Nat) (e : Element), (textChildren rootEscaped)[i]? = some e →
        e.Content = "&lt;strong&gt;x&lt;/strong&gt;" →
        ∃ seg, segs[i]? = some seg ∧ seg.Text = "<strong>x</strong>" :=
  ⟨rfl, Parse_escaped_tags_not_stripped (sampleLib docEscaped rootEscaped) docEscaped
    rootEscaped rfl validNumbers_rootEscaped rfl⟩

/-! ## C8 – C10: segments, errors and defaults -/

/-- C8: when the XML reader accepts the document and every `start` and `dur` value of
the `text` children of the root is well-formed, `Parse` succeeds; the slice has as
many segments as the root has `text` children, and the i-th segment is the one built
from the i-th `text` child. Children of another name contribute nothing. -/
theorem Parse_one_segment_per_text {F : Type} [Zero F] (lib : Libs F)
    (t : TranscriptParser) (b : String) (root : Element)
    (hxml : lib.xmlParse b = .ok root) (hvalid : ValidNumbers lib root) :
    ∃ segs, t.Parse lib b = (segs, none) ∧
      segs.length = (textChildren root).length ∧
      List.Forall₂ (fun e seg => segmentOf lib t.getHTMLRegex e = .ok seg)
        (textChildren root) segs := by
  obtain ⟨segs, hparse, hall⟩ := Parse_valid lib t b root hxml hvalid
  exact ⟨segs, hparse, hall.length_eq.symm, hall⟩

/-- C8, on a document with two `text` elements around a `note` element: two segments,
in document order. -/
theorem Parse_one_segment_per_text_witness :
    TranscriptParser.Parse (sampleLib docMixed rootMixed) { preserveFormatting := false }
        docMixed
      = ([{ Text := "one", Start := 1 / 2, Duration := 23 / 10 },
          { Text := "two", Start := 0, Duration := 0 }], none) ∧
    ∃ segs, TranscriptParser.Parse (sampleLib docMixed rootMixed)
        { preserveFormatting := false } docMixed = (segs, none) ∧
      segs.length = (textChildren rootMixed).length ∧
      List.Forall₂
        (fun e seg => segmentOf (sampleLib docMixed rootMixed)
          (TranscriptParser.getHTMLRegex { preserveFormatting := false }) e = .ok seg)
        (textChildren rootMixed) segs :=
  ⟨rfl, Parse_one_segment_per_text (sampleLib docMixed rootMixed)
    { preserveFormatting := false } docMixed rootMixed rfl validNumbers_rootMixed⟩

/-- C9, as stated, fails: `0x1p-2` is not a valid decimal number, yet `ParseFloat`
accepts it, and on the document
`<transcript><text start="0.5" dur="0x1p-2">one</text></transcript>` `Parse` returns a
segment (with Duration 0.25) and no error. -/
theorem Parse_accepts_hex_duration :
    isDecimalNumber "0x1p-2" = false ∧
    isDecimalNumber "0.5" = true ∧
    isDecimalNumber "abc" = false ∧
    TranscriptParser.Parse (sampleLib docHexDur rootHexDur) { preserveFormatting := false }
        docHexDur
      = ([{ Text := "one", Start := 1 / 2, Duration := 1 / 4 }], none) :=
  ⟨rfl, rfl, rfl, rfl⟩

/-- C9, amended: when the XML reader accepts the document and some `text` child of the
root has a `start` or `dur` attribute that `strconv.ParseFloat` rejects, `Parse` returns
no segments and an error; the error is the failure of `ParseFloat` on a `start` or `dur`
attribute of a `text` child, wrapped as "failed to parse start" or "failed to parse
duration". -/
theorem Parse_malformed_number {F : Type} [Zero F] (lib : Libs F) (t : TranscriptParser)
    (b : String) (root : Element) (hxml : lib.xmlParse b = .ok root)
    (hbad : ∃ e ∈ textChildren root, ∃ a ∈ e.Attr,
      (a.Name.Local = "start" ∨ a.Name.Local = "dur") ∧
        ∃ cause, lib.ParseFloat a.Value = .error cause) :
    ∃ err, t.Parse lib b = ([], some err) ∧
      ∃ e ∈ textChildren root, IsAttrFailure lib.ParseFloat e.Attr err := by
  rw [Parse_of_xml lib t b root hxml]
  cases hloop : parseChildren lib t.getHTMLRegex root.Children [] with
  | error err =>
    obtain ⟨x, hx, hseg⟩ := parseChildren_error lib _ _ _ err hloop
    exact ⟨err, rfl, x, hx,
      parseAttrs_error lib.ParseFloat x.Attr 0 0 err ((segmentOf_error_iff lib _ x err).mp hseg)⟩
  | ok out =>
    exfalso
    obtain ⟨segs, _, hall⟩ := parseChildren_ok lib _ _ _ out hloop
    obtain ⟨e, he, a, ha, hname, hcause⟩ := hbad
    obtain ⟨i, hi⟩ := List.getElem?_of_mem he
    obtain ⟨seg, _, hfrom⟩ := forall₂_getElem? hall i e hi
    have hattrs := ((segmentOf_ok_iff lib _ e seg).mp hfrom).2
    obtain ⟨err, herr⟩ :=
      parseAttrs_error_of_bad lib.ParseFloat e.Attr 0 0 ⟨a, ha, hname, hcause⟩
    rw [herr] at hattrs
    cases hattrs

/-- C9, on a document whose first `text` element is well-formed and whose second has
`start="abc"`: no segment, and the wrapped failure of `ParseFloat`. -/
theorem Parse_malformed_number_witness :
    TranscriptParser.Parse (sampleLib docBadStart rootBadStart) { preserveFormatting := false }
        docBadStart
      = ([], some (.wrap "failed to parse start"
          (.lib "strconv.ParseFloat: invalid syntax"))) ∧
    ∃ err, TranscriptParser.Parse (sampleLib docBadStart rootBadStart)
        { preserveFormatting := false } docBadStart = ([], some err) ∧
      ∃ e ∈ textChildren rootBadStart,
        IsAttrFailure (sampleLib docBadStart rootBadStart).ParseFloat e.Attr err :=
  ⟨rfl, Parse_malformed_number (sampleLib docBadStart rootBadStart)
    { preserveFormatting := false } docBadStart rootBadStart rfl
    ⟨leaf "text" [("start", "abc")] "two",
      List.mem_cons_of_mem _ (List.mem_cons_self _ _),
      { Name := { Space := "", Local := "start" }, Value := "abc" },
      List.mem_cons_self _ _, Or.inl rfl, _, rfl⟩⟩

/-- C10: in a document with well-formed numbers, the segment of a `text` child that has
no `start` attribute has Start = 0 and the segment of a `text` child that has no `dur`
attribute has Duration = 0, whatever the elements before it carry. -/
theorem Parse_missing_attr_zero {F : Type} [Zero F] (lib : Libs F) (t : TranscriptParser)
    (b : String) (root : Element) (hxml : lib.xmlParse b = .ok root)
    (hvalid : ValidNumbers lib root) :
    ∃ segs, t.Parse lib b = (segs, none) ∧
      ∀ (i : Nat) (e : Element), (textChildren root)[i]? = some e →
        ∃ seg, segs[i]? = some seg ∧
          ((∀ a ∈ e.Attr, a.Name.Local ≠ "start") → seg.Start = 0) ∧
          ((∀ a ∈ e.Attr, a.Name.Local ≠ "dur") → seg.Duration = 0) := by
  obtain ⟨segs, hparse, hall⟩ := Parse_valid lib t b root hxml hvalid
  refine ⟨segs, hparse, ?_⟩
  intro i e he
  obtain ⟨seg, hseg, hfrom⟩ := forall₂_getElem? hall i e he
  have hattrs := ((segmentOf_ok_iff lib _ e seg).mp hfrom).2
  exact ⟨seg, hseg,
    fun hno => parseAttrs_no_start lib.ParseFloat e.Attr 0 0 _ _ hno hattrs,
    fun hno => parseAttrs_no_dur lib.ParseFloat e.Attr 0 0 _ _ hno hattrs⟩

/-- C10, on a document whose first `text` element has start 0.5 and duration 2.3 and
whose second has neither attribute: the second segment has Start = 0 and
Duration = 0. -/
theorem Parse_missing_attr_zero_witness :
    (TranscriptParser.Parse (sampleLib docMixed rootMixed) { preserveFormatting := false }
        docMixed).1[1]?
      = some { Text := "two", Start := 0, Duration := 0 } ∧
    ∃ segs, TranscriptParser.Parse (sampleLib docMixed rootMixed)
        { preserveFormatting := false } docMixed = (segs, none) ∧
      ∀ (i : Nat) (e : Element), (textChildren rootMixed)[i]? = some e →
        ∃ seg, segs[i]? = some seg ∧
          ((∀ a ∈ e.Attr, a.Name.Local ≠ "start") → seg.Start = 0) ∧
          ((∀ a ∈ e.Attr, a.Name.Local ≠ "dur") → seg.Duration = 0) :=
  ⟨rfl, Parse_missing_attr_zero (sampleLib docMixed rootMixed)
    { preserveFormatting := false } docMixed rootMixed rfl validNumbers_rootMixed⟩

/-! ## Lemmas on the catalog maps -/

theorem lookup_filter_ne {V : Type} (m : GoMap V) (k c : String) (h : c ≠ k) :
    (m.filter (fun kv => kv.1 != k)).lookup c = m.lookup c := by
  induction m with
  | nil => rfl
  | cons kv rest ih =>
    obtain ⟨k', v⟩ := kv
    by_cases hk : k' = k
    · subst hk
      have hck : (c == k') = false := by simpa using h
      simp [List.filter, List.lookup, hck, ih]
    · have hne : (k' != k) = true := by simpa using hk
      simp only [List.filter, hne, List.lookup]
      rw [ih]

theorem lookup_mapSet {V : Type} (m : GoMap V) (k c : String) (v : V) :
    (mapSet m k v).lookup c = if c = k then some v else m.lookup c := by
  by_cases h : c = k
  · subst h
    simp [mapSet, List.lookup]
  · have hck : (c == k) = false := by simpa using h
    simp only [mapSet, List.lookup, hck, if_neg h]
    exact lookup_filter_ne m k c h

theorem getLast?_filter_cons {α : Type} (p : α → Bool) (x : α) (rest : List α) :
    ((x :: rest).filter p).getLast? =
      ((rest.filter p).getLast?).or (if p x = true then some x else none) := by
  by_cases hp : p x = true
  · rw [List.filter_cons_of_pos hp, if_pos hp, List.getLast?_cons]
    cases (rest.filter p).getLast? <;> rfl
  · rw [List.filter_cons_of_neg hp, if_neg hp]
    cases (rest.filter p).getLast? <;> rfl

theorem lastTrack_cons (x : JSON) (rest : List JSON) (c : String) (asr : Bool) :
    lastTrack (x :: rest) c asr =
      (lastTrack rest c asr).or
        (if (decide (trackCode x = some c) && (trackIsAsr x == asr)) = true then some x
          else none) :=
  getLast?_filter_cons
    (fun y => decide (trackCode y = some c) && (trackIsAsr y == asr)) x rest

theorem lastTrack_isSome_iff (tracks : List JSON) (c : String) (asr : Bool) :
    (lastTrack tracks c asr).isSome = true ↔
      ∃ x ∈ tracks, trackCode x = some c ∧ trackIsAsr x = asr := by
  induction tracks with
  | nil => simp [lastTrack]
  | cons x rest ih =>
    rw [lastTrack_cons]
    by_cases hp : (decide (trackCode x = some c) && (trackIsAsr x == asr)) = true
    · have hx : trackCode x = some c ∧ trackIsAsr x = asr := by simpa using hp
      have hsome : ((lastTrack rest c asr).or
          (if (decide (trackCode x = some c) && (trackIsAsr x == asr)) = true then some x
            else none)).isSome = true := by
        rw [if_pos hp]
        cases lastTrack rest c asr <;> rfl
      rw [hsome]
      exact ⟨fun _ => ⟨x, List.mem_cons_self _ _, hx⟩, fun _ => rfl⟩
    · have hx : ¬ (trackCode x = some c ∧ trackIsAsr x = asr) := by simpa using hp
      rw [if_neg hp]
      have hor : (lastTrack rest c asr).or none = lastTrack rest c asr := by
        cases lastTrack rest c asr <;> rfl
      rw [hor, ih]
      constructor
      · rintro ⟨y, hy, hcode⟩
        exact ⟨y, List.mem_cons_of_mem _ hy, hcode⟩
      · rintro ⟨y, hy, hcode⟩
        rcases List.mem_cons.mp hy with rfl | hmem
        · exact absurd hcode hx
        · exact ⟨y, hmem, hcode⟩

theorem lastTrack_mem (tracks : List JSON) (c : String) (asr : Bool) (x : JSON)
    (h : lastTrack tracks c asr = some x) :
    x ∈ tracks ∧ trackCode x = some c ∧ trackIsAsr x = asr := by
  have hmem : x ∈ tracks.filter
      (fun y => decide (trackCode y = some c) && (trackIsAsr y == asr)) :=
    List.mem_of_getLast?_eq_some h
  rcases List.mem_filter.mp hmem with ⟨hin, hp⟩
  have hx : trackCode x = some c ∧ trackIsAsr x = asr := by simpa using hp
  exact ⟨hin, hx⟩

/-- What a successful struct literal of the second loop says about the track. -/
theorem transcriptOfObject_fields (videoID : String) (obj : GoMap JSON) (ts : Transcript)
    (h : transcriptOfObject videoID obj = some ts) :
    trackCode (.object obj) = some ts.languageCode ∧
      trackIsAsr (.object obj) = (kindOf obj == "asr") ∧
      ts.isGenerated = (kindOf obj == "asr") := by
  unfold transcriptOfObject at h
  cases h1 : (mapIndex obj "baseUrl").asString with
  | none => simp [h1] at h
  | some url =>
    cases h2 : (mapIndex obj "name").asObject with
    | none => simp [h1, h2] at h
    | some name =>
      cases h3 : (mapIndex name "simpleText").asString with
      | none => simp [h1, h2, h3] at h
      | some lang =>
        cases h4 : (mapIndex obj "languageCode").asString with
        | none => simp [h1, h2, h3, h4] at h
        | some code =>
          simp only [h1, h2, h3, h4, Option.some.injEq] at h
          subst h
          refine ⟨?_, ?_, rfl⟩
          · unfold mapIndex at h4
            cases hl : List.lookup "languageCode" obj with
            | none => simp [hl, JSON.asString] at h4
            | some v =>
              cases v <;> simp [hl, JSON.asString] at h4
              simp [trackCode, hl, h4]
          · unfold kindOf mapIndex
            cases hl : List.lookup "kind" obj with
            | none =>
              simp only [trackIsAsr, hl, Option.getD, JSON.asString]
              decide
            | some v =>
              cases v <;> simp only [trackIsAsr, hl, Option.getD, JSON.asString] <;> decide

theorem or_none_right {α : Type} (o : Option α) : o.or none = o := by
  cases o <;> rfl

/-- The maps after the second loop: under each code the entry of the last track of
that code and kind, or what the map held before. -/
theorem captionLoop_lookup (videoID : String) (tracks : List JSON)
    (man gen man' gen' : GoMap Any)
    (h : captionLoop videoID tracks man gen = some (man', gen')) (c : String) :
    gen'.lookup c =
        (match lastTrack tracks c true with
          | some x => entryOf videoID x
          | none => gen.lookup c) ∧
      man'.lookup c =
        (match lastTrack tracks c false with
          | some x => entryOf videoID x
          | none => man.lookup c) := by
  induction tracks generalizing man gen with
  | nil =>
    simp only [captionLoop, Option.some.injEq, Prod.mk.injEq] at h
    obtain ⟨h1, h2⟩ := h
    subst h1 h2
    exact ⟨rfl, rfl⟩
  | cons x rest ih =>
    cases x with
    | object obj =>
      cases ht : transcriptOfObject videoID obj with
      | none => simp [captionLoop, JSON.asObject, ht] at h
      | some ts =>
        obtain ⟨hcode, hasr, _⟩ := transcriptOfObject_fields videoID obj ts ht
        have hentry : entryOf videoID (.object obj) = some (.transcript ts) := by
          simp [entryOf, JSON.asObject, ht]
        by_cases hk : kindOf obj = "asr"
        · have hasr' : trackIsAsr (.object obj) = true := by rw [hasr]; simpa using hk
          simp only [captionLoop, JSON.asObject, ht, hk, if_true] at h
          obtain ⟨ihg, ihm⟩ := ih _ _ h
          constructor
          · rw [ihg, lastTrack_cons, hcode, hasr']
            cases hl : lastTrack rest c true with
            | some y => rfl
            | none =>
              rw [lookup_mapSet]
              by_cases hc : c = ts.languageCode
              · subst hc
                simp [Option.or, hentry]
              · have hc' : ¬ ts.languageCode = c := fun e => hc e.symm
                simp [Option.or, hc, hc']
          · rw [ihm, lastTrack_cons, hasr']
            simp [or_none_right]
        · have hasr' : trackIsAsr (.object obj) = false := by rw [hasr]; simpa using hk
          simp only [captionLoop, JSON.asObject, ht, hk, if_false] at h
          obtain ⟨ihg, ihm⟩ := ih _ _ h
          constructor
          · rw [ihg, lastTrack_cons, hasr']
            simp [or_none_right]
          · rw [ihm, lastTrack_cons, hcode, hasr']
            cases hl : lastTrack rest c false with
            | some y => rfl
            | none =>
              rw [lookup_mapSet]
              by_cases hc : c = ts.languageCode
              · subst hc
                simp [Option.or, hentry]
              · have hc' : ¬ ts.languageCode = c := fun e => hc e.symm
                simp [Option.or, hc, hc']
    | null => simp [captionLoop, JSON.asObject] at h
    | bool b => simp [captionLoop, JSON.asObject] at h
    | number q => simp [captionLoop, JSON.asObject] at h
    | string t => simp [captionLoop, JSON.asObject] at h
    | array xs => simp [captionLoop, JSON.asObject] at h

/-- The second loop runs through when every track yields an entry. -/
theorem captionLoop_isSome (videoID : String) (tracks : List JSON) (man gen : GoMap Any)
    (hwf : ∀ x ∈ tracks, (entryOf videoID x).isSome = true) :
    ∃ r, captionLoop videoID tracks man gen = some r := by
  induction tracks generalizing man gen with
  | nil => exact ⟨_, rfl⟩
  | cons x rest ih =>
    have hx := hwf x (List.mem_cons_self _ _)
    have hrest : ∀ y ∈ rest, (entryOf videoID y).isSome = true :=
      fun y hy => hwf y (List.mem_cons_of_mem _ hy)
    cases hobj : x.asObject with
    | none => simp [entryOf, hobj] at hx
    | some obj =>
      cases ht : transcriptOfObject videoID obj with
      | none => simp [entryOf, hobj, ht] at hx
      | some ts =>
        by_cases hk : kindOf obj = "asr"
        · simp only [captionLoop, hobj, ht, hk, if_true]
          exact ih _ _ hrest
        · simp only [captionLoop, hobj, ht, hk, if_false]
          exact ih _ _ hrest

/-- The first loop runs through when every entry is well-formed. -/
theorem translationLoop_isSome (entries : List JSON) (acc : List translationLanguage)
    (hwf : ∀ x ∈ entries, (translationLanguageOf x).isSome = true) :
    ∃ r, translationLoop entries acc = some r := by
  induction entries generalizing acc with
  | nil => exact ⟨_, rfl⟩
  | cons x rest ih =>
    have hx := hwf x (List.mem_cons_self _ _)
    have hrest : ∀ y ∈ rest, (translationLanguageOf y).isSome = true :=
      fun y hy => hwf y (List.mem_cons_of_mem _ hy)
    cases ht : translationLanguageOf x with
    | none => simp [ht] at hx
    | some tl =>
      simp only [translationLoop, ht]
      exact ih _ hrest

/-- An entry built from a track carries the code and the kind of the track. -/
theorem entryOf_fields (videoID : String) (x : JSON) (v : Any)
    (h : entryOf videoID x = some v) :
    ∃ t, v = .transcript t ∧ trackCode x = some t.languageCode ∧
      t.isGenerated = trackIsAsr x := by
  cases x with
  | object obj =>
    cases ht : transcriptOfObject videoID obj with
    | none => simp [entryOf, JSON.asObject, ht] at h
    | some ts =>
      obtain ⟨hcode, hasr, hgen⟩ := transcriptOfObject_fields videoID obj ts ht
      simp only [entryOf, JSON.asObject, ht, Option.map, Option.some.injEq] at h
      exact ⟨ts, h.symm, hcode, by rw [hgen, hasr]⟩
  | null => simp [entryOf, JSON.asObject] at h
  | bool b => simp [entryOf, JSON.asObject] at h
  | number q => simp [entryOf, JSON.asObject] at h
  | string t => simp [entryOf, JSON.asObject] at h
  | array xs => simp [entryOf, JSON.asObject] at h

/-- `NewTranscriptList` on a manifest whose two collections are arrays of well-formed
entries: it returns a catalog, and each map holds under a code the entry of the last
track of that code and kind. -/
theorem NewTranscriptList_ok (videoID : String) (captionsJSON : GoMap JSON)
    (entries tracks : List JSON)
    (hentries : captionsJSON.lookup "translationLanguages" = some (.array entries))
    (hentrieswf : ∀ x ∈ entries, (translationLanguageOf x).isSome = true)
    (htracks : captionsJSON.lookup "captionTracks" = some (.array tracks))
    (htrackswf : ∀ x ∈ tracks, (entryOf videoID x).isSome = true) :
    ∃ tl, NewTranscriptList videoID captionsJSON = .ok tl ∧
      ∀ c : String,
        tl.GeneratedTranscripts.lookup c = (lastTrack tracks c true).bind (entryOf videoID) ∧
        tl.ManuallyCreatedTranscripts.lookup c =
          (lastTrack tracks c false).bind (entryOf videoID) := by
  obtain ⟨tls, htls⟩ := translationLoop_isSome entries [] hentrieswf
  obtain ⟨⟨man, gen⟩, hloop⟩ := captionLoop_isSome videoID tracks [] [] htrackswf
  refine ⟨{ VideoID := videoID, ManuallyCreatedTranscripts := man,
             GeneratedTranscripts := gen, Translationlanguages := tls }, ?_, ?_⟩
  · simp only [NewTranscriptList, mapIndex, hentries, htracks, Option.getD, JSON.asArray,
      htls, hloop]
  · intro c
    obtain ⟨hg, hm⟩ := captionLoop_lookup videoID tracks [] [] man gen hloop c
    constructor
    · rw [hg]
      cases lastTrack tracks c true <;> rfl
    · rw [hm]
      cases lastTrack tracks c false <;> rfl

theorem bind_entryOf_isSome (videoID : String) (tracks : List JSON) (c : String)
    (asr : Bool) (hwf : ∀ x ∈ tracks, (entryOf videoID x).isSome = true) :
    ((lastTrack tracks c asr).bind (entryOf videoID)).isSome = true ↔
      ∃ x ∈ tracks, trackCode x = some c ∧ trackIsAsr x = asr := by
  rw [← lastTrack_isSome_iff]
  cases hl : lastTrack tracks c asr with
  | none => simp
  | some x =>
    have hx := hwf x (lastTrack_mem tracks c asr x hl).1
    simpa using hx

theorem manifestEnEn_tracks_wf (videoID : String) :
    ∀ x ∈ tracksEnEn, (entryOf videoID x).isSome = true := by
  intro x hx
  simp only [tracksEnEn, List.mem_cons, List.mem_singleton, List.not_mem_nil, or_false] at hx
  rcases hx with rfl | rfl | rfl <;> rfl

theorem manifestEnEn_translations_wf :
    ∀ x ∈ translationsFr, (translationLanguageOf x).isSome = true := by
  intro x hx
  simp only [translationsFr, List.mem_singleton] at hx
  subst hx
  rfl

/-! ## C11, C12, C18: the catalog -/

/-- C11: on a manifest that has no `translationLanguages` field, `NewTranscriptList`
does not return: the assertion `.([]any)` on the missing value aborts it, whatever
`captionTracks` holds. -/
theorem NewTranscriptList_aborts_without_translationLanguages (videoID : String)
    (captionsJSON : GoMap JSON)
    (h : captionsJSON.lookup "translationLanguages" = none) :
    NewTranscriptList videoID captionsJSON = .panic := by
  simp [NewTranscriptList, mapIndex, h, JSON.asArray]

/-- C11, on the manifest with a well-formed `captionTracks` and no
`translationLanguages`. -/
theorem NewTranscriptList_aborts_without_translationLanguages_witness :
    manifestNoTranslations.lookup "translationLanguages" = none ∧
    (manifestNoTranslations.lookup "captionTracks").isSome = true ∧
    NewTranscriptList "vid" manifestNoTranslations = .panic :=
  ⟨rfl, rfl,
    NewTranscriptList_aborts_without_translationLanguages "vid" manifestNoTranslations rfl⟩

/-- C12, as stated, fails: for the manifest that lists a manual and an `asr` track with
the language code "en", the catalog returned by `NewTranscriptList` has "en" as a key of
the manual and of the generated partition. -/
theorem NewTranscriptList_key_of_both_example :
    ∃ tl, NewTranscriptList "vid" manifestEnEn = .ok tl ∧
      (tl.ManuallyCreatedTranscripts.lookup "en").isSome = true ∧
      (tl.GeneratedTranscripts.lookup "en").isSome = true :=
  ⟨_, rfl, rfl, rfl⟩

/-- C12, amended: in the catalog that `NewTranscriptList` returns for a manifest with
well-formed collections, a language code is a key of both partitions exactly when the
manifest lists a track of that code whose kind is not `asr` and a track of that code
whose kind is `asr`; otherwise it is a key of at most one. -/
theorem NewTranscriptList_key_of_both (videoID : String) (captionsJSON : GoMap JSON)
    (entries tracks : List JSON)
    (hentries : captionsJSON.lookup "translationLanguages" = some (.array entries))
    (hentrieswf : ∀ x ∈ entries, (translationLanguageOf x).isSome = true)
    (htracks : captionsJSON.lookup "captionTracks" = some (.array tracks))
    (htrackswf : ∀ x ∈ tracks, (entryOf videoID x).isSome = true) :
    ∃ tl, NewTranscriptList videoID captionsJSON = .ok tl ∧
      ∀ c : String,
        ((tl.ManuallyCreatedTranscripts.lookup c).isSome = true ∧
          (tl.GeneratedTranscripts.lookup c).isSome = true) ↔
        ((∃ x ∈ tracks, trackCode x = some c ∧ trackIsAsr x = false) ∧
          (∃ y ∈ tracks, trackCode y = some c ∧ trackIsAsr y = true)) := by
  obtain ⟨tl, hok, hmaps⟩ := NewTranscriptList_ok videoID captionsJSON entries tracks
    hentries hentrieswf htracks htrackswf
  refine ⟨tl, hok, ?_⟩
  intro c
  obtain ⟨hg, hm⟩ := hmaps c
  rw [hg, hm, bind_entryOf_isSome videoID tracks c false htrackswf,
    bind_entryOf_isSome videoID tracks c true htrackswf]

/-- C12 amended, on the manifest with two manual "en" tracks and one `asr` "en"
track. -/
theorem NewTranscriptList_key_of_both_witness :
    ∃ tl, NewTranscriptList "vid" manifestEnEn = .ok tl ∧
      ∀ c : String,
        ((tl.ManuallyCreatedTranscripts.lookup c).isSome = true ∧
          (tl.GeneratedTranscripts.lookup c).isSome = true) ↔
        ((∃ x ∈ tracksEnEn, trackCode x = some c ∧ trackIsAsr x = false) ∧
          (∃ y ∈ tracksEnEn, trackCode y = some c ∧ trackIsAsr y = true)) :=
  NewTranscriptList_key_of_both "vid" manifestEnEn translationsFr tracksEnEn rfl
    manifestEnEn_translations_wf rfl (manifestEnEn_tracks_wf "vid")

/-- C18: for a manifest with well-formed collections `NewTranscriptList` returns a
catalog in which, for every code `c`: `c` is a key of the generated partition iff some
track has language code `c` and kind `asr`, and the entry is the one built from the
last such track; `c` is a key of the manual partition iff some track has language code
`c` and a kind that is absent or not `asr`, and the entry is the one built from the
last such track; an entry under `c` is a `Transcript` with languageCode `c`, with
isGenerated true in the generated and false in the manual partition. -/
theorem NewTranscriptList_partitions (videoID : String) (captionsJSON : GoMap JSON)
    (entries tracks : List JSON)
    (hentries : captionsJSON.lookup "translationLanguages" = some (.array entries))
    (hentrieswf : ∀ x ∈ entries, (translationLanguageOf x).isSome = true)
    (htracks : captionsJSON.lookup "captionTracks" = some (.array tracks))
    (htrackswf : ∀ x ∈ tracks, (entryOf videoID x).isSome = true) :
    ∃ tl, NewTranscriptList videoID captionsJSON = .ok tl ∧
      ∀ c : String,
        ((tl.GeneratedTranscripts.lookup c).isSome = true ↔
          ∃ x ∈ tracks, trackCode x = some c ∧ trackIsAsr x = true) ∧
        tl.GeneratedTranscripts.lookup c = (lastTrack tracks c true).bind (entryOf videoID) ∧
        ((tl.ManuallyCreatedTranscripts.lookup c).isSome = true ↔
          ∃ x ∈ tracks, trackCode x = some c ∧ trackIsAsr x = false) ∧
        tl.ManuallyCreatedTranscripts.lookup c =
          (lastTrack tracks c false).bind (entryOf videoID) ∧
        (∀ v : Any, tl.GeneratedTranscripts.lookup c = some v →
          ∃ t : Transcript, v = .transcript t ∧ t.languageCode = c ∧ t.isGenerated = true) ∧
        (∀ v : Any, tl.ManuallyCreatedTranscripts.lookup c = some v →
          ∃ t : Transcript, v = .transcript t ∧ t.languageCode = c ∧ t.isGenerated = false) := by
  obtain ⟨tl, hok, hmaps⟩ := NewTranscriptList_ok videoID captionsJSON entries tracks
    hentries hentrieswf htracks htrackswf
  refine ⟨tl, hok, ?_⟩
  intro c
  obtain ⟨hg, hm⟩ := hmaps c
  have entry : ∀ (asr : Bool) (v : Any),
      (lastTrack tracks c asr).bind (entryOf videoID) = some v →
      ∃ t : Transcript, v = .transcript t ∧ t.languageCode = c ∧ t.isGenerated = asr := by
    intro asr v hv
    cases hl : lastTrack tracks c asr with
    | none => simp [hl] at hv
    | some x =>
      rw [hl] at hv
      obtain ⟨_, hcode, hasr⟩ := lastTrack_mem tracks c asr x hl
      obtain ⟨t, hvt, htcode, htgen⟩ := entryOf_fields videoID x v hv
      refine ⟨t, hvt, ?_, ?_⟩
      · rw [hcode] at htcode
        exact (Option.some.inj htcode).symm
      · rw [htgen, hasr]
  refine ⟨?_, hg, ?_, hm, ?_, ?_⟩
  · rw [hg]
    exact bind_entryOf_isSome videoID tracks c true htrackswf
  · rw [hm]
    exact bind_entryOf_isSome videoID tracks c false htrackswf
  · intro v hv
    rw [hg] at hv
    exact entry true v hv
  · intro v hv
    rw [hm] at hv
    exact entry false v hv

/-- C18, on the manifest whose tracks are manual "en" (u1), `asr` "en" (u2), manual
"en" (u3): the manual partition holds the track u3 under "en", the generated one the
track u2. -/
theorem NewTranscriptList_partitions_witness :
    (∃ tl, NewTranscriptList "vid" manifestEnEn = .ok tl ∧
      tl.ManuallyCreatedTranscripts.lookup "en" = entryOf "vid" (trackJSON "u3" "English (UK)" "en" none) ∧
      tl.GeneratedTranscripts.lookup "en" =
        entryOf "vid" (trackJSON "u2" "English (auto-generated)" "en" (some "asr"))) ∧
    ∃ tl, NewTranscriptList "vid" manifestEnEn = .ok tl ∧
      ∀ c : String,
        ((tl.GeneratedTranscripts.lookup c).isSome = true ↔
          ∃ x ∈ tracksEnEn, trackCode x = some c ∧ trackIsAsr x = true) ∧
        tl.GeneratedTranscripts.lookup c = (lastTrack tracksEnEn c true).bind (entryOf "vid") ∧
        ((tl.ManuallyCreatedTranscripts.lookup c).isSome = true ↔
          ∃ x ∈ tracksEnEn, trackCode x = some c ∧ trackIsAsr x = false) ∧
        tl.ManuallyCreatedTranscripts.lookup c =
          (lastTrack tracksEnEn c false).bind (entryOf "vid") ∧
        (∀ v : Any, tl.GeneratedTranscripts.lookup c = some v →
          ∃ t : Transcript, v = .transcript t ∧ t.languageCode = c ∧ t.isGenerated = true) ∧
        (∀ v : Any, tl.ManuallyCreatedTranscripts.lookup c = some v →
          ∃ t : Transcript, v = .transcript t ∧ t.languageCode = c ∧ t.isGenerated = false) :=
  ⟨⟨_, rfl, rfl, rfl⟩,
    NewTranscriptList_partitions "vid" manifestEnEn translationsFr tracksEnEn rfl
      manifestEnEn_translations_wf rfl (manifestEnEn_tracks_wf "vid")⟩

/-! ## Lemmas on package `strings` -/

theorem indexAux_succ (sub s : List Char) (i : Nat) :
    strings.indexAux sub s (i + 1) = (strings.indexAux sub s i).map (· + 1) := by
  induction s generalizing i with
  | nil =>
    by_cases h : sub.isEmpty = true <;> simp [strings.indexAux, h]
  | cons c rest ih =>
    by_cases h : sub.isPrefixOf (c :: rest) = true
    · simp [strings.indexAux, h]
    · simp only [strings.indexAux, h]
      exact ih (i + 1)

theorem indexAux_nil_of_ne_nil (sub : List Char) (h : sub ≠ []) (i : Nat) :
    strings.indexAux sub [] i = none := by
  cases sub with
  | nil => exact absurd rfl h
  | cons a as => simp [strings.indexAux]

theorem splitAux_ne_nil (sep : List Char) (fuel : Nat) (s : List Char) :
    ∃ piece rest, strings.splitAux sep fuel s = piece :: rest := by
  cases fuel with
  | zero => exact ⟨s, [], rfl⟩
  | succ f =>
    cases h : strings.indexAux sep s 0 with
    | none => exact ⟨s, [], by simp [strings.splitAux, h]⟩
    | some m =>
      exact ⟨s.take m, strings.splitAux sep f (s.drop (m + sep.length)),
        by simp [strings.splitAux, h]⟩

theorem splitAux_succ_some (sep : List Char) (fuel : Nat) (s : List Char) (m : Nat)
    (h : strings.indexAux sep s 0 = some m) :
    strings.splitAux sep (fuel + 1) s =
      s.take m :: strings.splitAux sep fuel (s.drop (m + sep.length)) := by
  simp only [strings.splitAux, h]

theorem splitAux_head (sep : List Char) (fuel : Nat) (s : List Char) :
    ∃ rest, strings.splitAux sep (fuel + 1) s = beforeFirst sep s :: rest := by
  cases h : strings.indexAux sep s 0 with
  | none => exact ⟨[], by simp [strings.splitAux, beforeFirst, h]⟩
  | some m =>
    exact ⟨strings.splitAux sep fuel (s.drop (m + sep.length)),
      by simp [strings.splitAux, beforeFirst, h]⟩

/-- The first piece of `Split` is the text before the first separator. -/
theorem Split_headD (s sep : String) :
    (strings.Split s sep).headD "" = String.mk (beforeFirst sep.data s.data) := by
  obtain ⟨rest, h⟩ := splitAux_head sep.data s.data.length s.data
  unfold strings.Split
  rw [h]
  rfl

/-- With a separator in the text, `Split` has a second piece: the text between the
first separator and the next one. -/
theorem Split_second (s sep : String) (hsep : sep.data ≠ [])
    (h : strings.Contains s sep = true) :
    1 < (strings.Split s sep).length ∧
      (strings.Split s sep).getD 1 "" =
        String.mk (beforeFirst sep.data (afterFirst sep.data s.data)) := by
  have hidx : ∃ i, strings.indexAux sep.data s.data 0 = some i := by
    simpa [strings.Contains, strings.Index, Option.isSome_iff_exists] using h
  obtain ⟨i, hi⟩ := hidx
  have hne : s.data ≠ [] := by
    intro hnil
    rw [hnil, indexAux_nil_of_ne_nil sep.data hsep 0] at hi
    cases hi
  obtain ⟨f, hf⟩ : ∃ f, s.data.length = f + 1 := by
    cases hd : s.data with
    | nil => exact absurd hd hne
    | cons c cs => exact ⟨cs.length, rfl⟩
  obtain ⟨rest, hrest⟩ := splitAux_head sep.data f (s.data.drop (i + sep.data.length))
  have hafter : afterFirst sep.data s.data = s.data.drop (i + sep.data.length) := by
    simp [afterFirst, hi]
  have hsplit : strings.splitAux sep.data (s.data.length + 1) s.data =
      s.data.take i :: beforeFirst sep.data (afterFirst sep.data s.data) :: rest := by
    rw [hf, splitAux_succ_some sep.data (f + 1) s.data i hi, hrest, hafter]
  unfold strings.Split
  rw [hsplit]
  exact ⟨by simp, rfl⟩

theorem single_filter (c : Char) (s : List Char) :
    (strings.indexAux [c] s 0 = none → s.filter (fun d => d != c) = s) ∧
      (∀ j, strings.indexAux [c] s 0 = some j →
        j < s.length ∧
          s.filter (fun d => d != c) = s.take j ++ (s.drop (j + 1)).filter (fun d => d != c)) := by
  induction s with
  | nil => simp [strings.indexAux]
  | cons d rest ih =>
    by_cases hcd : c = d
    · subst hcd
      simp [strings.indexAux, List.isPrefixOf]
    · have hdc : ¬ d = c := fun e => hcd e.symm
      have hb : (d != c) = true := by simpa using hdc
      have hstep : strings.indexAux [c] (d :: rest) 0 =
          (strings.indexAux [c] rest 0).map (· + 1) := by
        simp only [strings.indexAux, List.isPrefixOf]
        rw [← indexAux_succ]
        simp [hcd]
      rw [hstep]
      cases hr : strings.indexAux [c] rest 0 with
      | none =>
        have h1 := ih.1 hr
        simp only [Option.map_none', reduceCtorEq, false_implies, implies_true, and_true,
          true_implies]
        simp only [List.filter_cons, hb, if_true, h1]
      | some j =>
        obtain ⟨hj, hfilter⟩ := ih.2 j hr
        simp only [Option.map_some', Option.some.injEq, reduceCtorEq, false_implies, true_and]
        intro j' hj'
        subst hj'
        refine ⟨by simp [hj], ?_⟩
        simp only [List.filter_cons, hb, if_true, List.take_succ_cons, List.drop_succ_cons,
          List.cons_append]
        rw [hfilter]

/-- Replacing a character by nothing filters it out. -/
theorem replaceAux_single (c : Char) (fuel : Nat) (s : List Char) (h : s.length < fuel) :
    strings.replaceAux [c] [] fuel s = s.filter (fun d => d != c) := by
  induction fuel generalizing s with
  | zero => exact absurd h (Nat.not_lt_zero _)
  | succ f ih =>
    obtain ⟨hnone, hsome⟩ := single_filter c s
    cases hi : strings.indexAux [c] s 0 with
    | none =>
      simp only [strings.replaceAux, hi]
      exact (hnone hi).symm
    | some j =>
      obtain ⟨hj, hfilter⟩ := hsome j hi
      have hlen : (s.drop (j + 1)).length < f := by
        rw [List.length_drop]
        omega
      simp only [strings.replaceAux, hi, List.append_nil, List.length_singleton]
      rw [ih _ hlen, hfilter]

/-- `strings.Replace(s, "\n", "", -1)` removes every newline. -/
theorem Replace_newline (s : String) :
    strings.Replace s "\n" "" = String.mk (s.data.filter (fun d => d != '\n')) := by
  unfold strings.Replace
  have h := replaceAux_single '\n' (s.data.length + 1) s.data (Nat.lt_succ_self _)
  exact congrArg String.mk h

/-! ## Lemmas on `extractCaptionsJSON` with the marker present -/

/-- The text handed to the decoder, computed from the pieces of the two splits. -/
theorem decoder_input (videoHTML : String)
    (h : strings.Contains videoHTML "\"captions\":" = true) :
    strings.Replace
        ((strings.Split ((strings.Split videoHTML "\"captions\":").getD 1 "")
          ",\"videoDetails").headD "") "\n" "" =
      chunkBetweenMarkers videoHTML := by
  have hsep : ("\"captions\":" : String).data ≠ [] := by decide
  rw [Replace_newline, Split_headD, (Split_second videoHTML "\"captions\":" hsep h).2]
  rfl

/-- With the marker on the page, `extractCaptionsJSON` is the decoder applied to the
text between the markers, followed by the descent into the renderer. -/
theorem extractCaptionsJSON_of_marker
    (jsonUnmarshal : String → Except Error (GoMap JSON)) (videoHTML videoID : String)
    (h : strings.Contains videoHTML "\"captions\":" = true) :
    extractCaptionsJSON jsonUnmarshal videoHTML videoID =
      descend (jsonUnmarshal (chunkBetweenMarkers videoHTML)) := by
  have hsep : ("\"captions\":" : String).data ≠ [] := by decide
  have hlen : ¬ (strings.Split videoHTML "\"captions\":").length ≤ 1 :=
    Nat.not_le.mpr (Split_second videoHTML "\"captions\":" hsep h).1
  unfold extractCaptionsJSON
  simp only [hlen, if_false]
  rw [decoder_input videoHTML h]
  rfl

/-! ## C15 – C17: the manifest behind the marker -/

/-- C15: when the page has the marker and the decoded JSON has no
`playerCaptionsTracklistRenderer` key, or has it with a value that is not an object,
`extractCaptionsJSON` returns neither a manifest nor an error: the type assertion
aborts it. -/
theorem extractCaptionsJSON_aborts_on_shape
    (jsonUnmarshal : String → Except Error (GoMap JSON)) (videoHTML videoID : String)
    (captions : GoMap JSON)
    (hmarker : strings.Contains videoHTML "\"captions\":" = true)
    (hdecoded : jsonUnmarshal (chunkBetweenMarkers videoHTML) = .ok captions)
    (hshape : captions.lookup "playerCaptionsTracklistRenderer" = none ∨
      ∃ v, captions.lookup "playerCaptionsTracklistRenderer" = some v ∧ v.asObject = none) :
    extractCaptionsJSON jsonUnmarshal videoHTML videoID = .panic := by
  rw [extractCaptionsJSON_of_marker jsonUnmarshal videoHTML videoID hmarker, hdecoded]
  rcases hshape with hnone | ⟨v, hv, hobj⟩
  · simp [descend, hnone]
  · cases v <;> simp [JSON.asObject] at hobj <;> simp [descend, hv]

/-- C15, on the page whose JSON is `{"foo":1}` and on the page whose
`playerCaptionsTracklistRenderer` is an array. -/
theorem extractCaptionsJSON_aborts_on_shape_witness :
    extractCaptionsJSON shapeDecoder pageNoRenderer "vid" = .panic ∧
    extractCaptionsJSON shapeDecoder pageRendererArray "vid" = .panic :=
  ⟨extractCaptionsJSON_aborts_on_shape shapeDecoder pageNoRenderer "vid"
      [("foo", .number 1)] rfl rfl (Or.inl rfl),
    extractCaptionsJSON_aborts_on_shape shapeDecoder pageRendererArray "vid"
      [("playerCaptionsTracklistRenderer", .array [])] rfl rfl
      (Or.inr ⟨.array [], rfl, rfl⟩)⟩

/-- C16, as stated, fails: on the page
`<html>"captions":{"k":{"captions":1}},"videoDetails":{}</html>` the decoder is handed
the text `{"k":{`, which ends at the second `"captions":`, whereas everything after the
first marker cut at `,"videoDetails` is `{"k":{"captions":1}}`. -/
theorem extractCaptionsJSON_second_marker :
    extractCaptionsJSON echoDecoder pageTwoMarkers "vid" =
      .err (.wrap "failed to unmarshal captions JSON" (.lib "\x7b\"k\":\x7b")) ∧
    chunkAsClaimed pageTwoMarkers = "\x7b\"k\":\x7b\"captions\":1\x7d\x7d" ∧
    extractCaptionsJSON echoDecoder pageTwoMarkers "vid" ≠
      descend (echoDecoder (chunkAsClaimed pageTwoMarkers)) := by
  refine ⟨rfl, rfl, ?_⟩
  have h1 : extractCaptionsJSON echoDecoder pageTwoMarkers "vid" =
      .err (.wrap "failed to unmarshal captions JSON" (.lib "\x7b\"k\":\x7b")) := rfl
  have h2 : descend (echoDecoder (chunkAsClaimed pageTwoMarkers)) =
      .err (.wrap "failed to unmarshal captions JSON" (.lib "\x7b\"k\":\x7b\"captions\":1\x7d\x7d")) := rfl
  rw [h1, h2]
  intro heq
  injection heq with heq
  injection heq with _ heq
  injection heq with heq
  exact absurd heq (by decide)

/-- C16, amended: on a page with the marker `"captions":`, the text handed to the JSON
decoder is the text between the first `"captions":` and the next `"captions":` (or the
end of the page), cut at the first `,"videoDetails` in it, with the newlines removed;
a decoder that reports its input shows exactly that text. When `"captions":` does not
occur again, this is everything after the marker cut at `,"videoDetails`. -/
theorem extractCaptionsJSON_decoder_input (videoHTML videoID : String)
    (hmarker : strings.Contains videoHTML "\"captions\":" = true) :
    (∀ jsonUnmarshal : String → Except Error (GoMap JSON),
      extractCaptionsJSON jsonUnmarshal videoHTML videoID =
        descend (jsonUnmarshal (chunkBetweenMarkers videoHTML))) ∧
    extractCaptionsJSON echoDecoder videoHTML videoID =
      .err (.wrap "failed to unmarshal captions JSON" (.lib (chunkBetweenMarkers videoHTML))) ∧
    (strings.indexAux captionsMarker.data (afterFirst captionsMarker.data videoHTML.data) 0
        = none →
      chunkBetweenMarkers videoHTML = chunkAsClaimed videoHTML) := by
  refine ⟨fun ju => extractCaptionsJSON_of_marker ju videoHTML videoID hmarker, ?_, ?_⟩
  · rw [extractCaptionsJSON_of_marker echoDecoder videoHTML videoID hmarker]
    rfl
  · intro hnone
    unfold chunkBetweenMarkers chunkAsClaimed
    have hb : beforeFirst captionsMarker.data (afterFirst captionsMarker.data videoHTML.data) =
        afterFirst captionsMarker.data videoHTML.data := by
      simp [beforeFirst, hnone]
    rw [hb]

/-- C16 amended, on the watch page with one manual English track: the decoder is
handed the embedded JSON text. -/
theorem extractCaptionsJSON_decoder_input_witness :
    chunkBetweenMarkers watchPage = watchChunk ∧
    extractCaptionsJSON echoDecoder watchPage "vid" =
      .err (.wrap "failed to unmarshal captions JSON" (.lib (chunkBetweenMarkers watchPage))) :=
  ⟨rfl, (extractCaptionsJSON_decoder_input watchPage "vid" rfl).2.1⟩

/-- C17: when the page has the marker and the decoded JSON has an object `renderer`
under `playerCaptionsTracklistRenderer`, `extractCaptionsJSON` fails with
`ErrTranscriptDisabled` if `renderer` is empty, fails with `ErrNoTranscriptFound` if it
is not empty and has no `captionTracks` key, and returns `renderer` otherwise; and
every manifest that `extractCaptionsJSON` returns has the key `captionTracks`. -/
theorem extractCaptionsJSON_renderer
    (jsonUnmarshal : String → Except Error (GoMap JSON)) (videoHTML videoID : String)
    (captions renderer : GoMap JSON)
    (hmarker : strings.Contains videoHTML "\"captions\":" = true)
    (hdecoded : jsonUnmarshal (chunkBetweenMarkers videoHTML) = .ok captions)
    (hrenderer : captions.lookup "playerCaptionsTracklistRenderer" = some (.object renderer)) :
    (renderer = [] →
      extractCaptionsJSON jsonUnmarshal videoHTML videoID = .err .ErrTranscriptDisabled) ∧
    (renderer ≠ [] → renderer.lookup "captionTracks" = none →
      extractCaptionsJSON jsonUnmarshal videoHTML videoID = .err .ErrNoTranscriptFound) ∧
    (renderer ≠ [] → (renderer.lookup "captionTracks").isSome = true →
      extractCaptionsJSON jsonUnmarshal videoHTML videoID = .ok renderer) ∧
    (∀ manifest, extractCaptionsJSON jsonUnmarshal videoHTML videoID = .ok manifest →
      (manifest.lookup "captionTracks").isSome = true) := by
  rw [extractCaptionsJSON_of_marker jsonUnmarshal videoHTML videoID hmarker, hdecoded]
  have hlen : renderer ≠ [] → ¬ renderer.length = 0 := fun hne h0 =>
    hne (List.length_eq_zero.mp h0)
  refine ⟨?_, ?_, ?_, ?_⟩
  · intro hempty
    simp [descend, hrenderer, hempty]
  · intro hne hnone
    simp [descend, hrenderer, hlen hne, hnone]
  · intro hne hsome
    have hnot : ¬ (renderer.lookup "captionTracks").isNone = true := by
      cases hl : renderer.lookup "captionTracks" with
      | none => simp [hl] at hsome
      | some v => simp
    simp [descend, hrenderer, hlen hne, hnot]
  · intro manifest hok
    simp only [descend, hrenderer] at hok
    by_cases h0 : renderer.length = 0
    · simp [h0] at hok
    · by_cases hnone : (renderer.lookup "captionTracks").isNone = true
      · simp [h0, hnone] at hok
      · simp [h0, hnone] at hok
        subst hok
        cases hl : renderer.lookup "captionTracks" with
        | none => simp [hl] at hnone
        | some v => rfl

/-- C17, on the watch page with one manual English track: the renderer object is
returned. -/
theorem extractCaptionsJSON_renderer_witness :
    extractCaptionsJSON (tableDecoder [(watchChunk, watchManifest)]) watchPage "vid" =
      .ok [("captionTracks", .array [trackJSON "u1" "English" "en" none]),
        ("translationLanguages", .array [])] :=
  (extractCaptionsJSON_renderer (tableDecoder [(watchChunk, watchManifest)]) watchPage "vid"
    watchManifest
    [("captionTracks", .array [trackJSON "u1" "English" "en" none]),
      ("translationLanguages", .array [])]
    rfl rfl rfl).2.2.1 (by simp) rfl

/-! ## C14: the consent page -/

/-- C14: when the first response has the consent marker and no `name="v" value="…"`
token, and the second fetch returns a page without the consent marker,
`fetchVideoHTML` returns that second page with a nil error: the
`ErrFailedToCreateConsetCookie` that `createConsetCookie` returns is dropped. -/
theorem fetchVideoHTML_drops_cookie_error {σ : Type} (http : Http σ) (s s1 s3 : σ)
    (videoID html html' : String)
    (hfirst : fetchHTML http s videoID = .ok (s1, html))
    (hconsent : strings.Contains html consentMarker = true)
    (htoken : consentToken html = none)
    (hsecond : fetchHTML http s1 videoID = .ok (s3, html'))
    (hclear : strings.Contains html' consentMarker = false) :
    createConsetCookie http s1 html videoID = .err .ErrFailedToCreateConsetCookie ∧
      fetchVideoHTML http s videoID = .ok (s3, html') := by
  have hcookie : createConsetCookie http s1 html videoID =
      .err .ErrFailedToCreateConsetCookie := by
    simp [createConsetCookie, htoken]
  refine ⟨hcookie, ?_⟩
  simp [fetchVideoHTML, hfirst, hconsent, hcookie, hsecond, hclear]

/-- C14, on a client that answers first with a consent page without token and then
with a watch page. -/
theorem fetchVideoHTML_drops_cookie_error_witness :
    strings.Contains consentPageNoToken consentMarker = true ∧
    consentToken consentPageNoToken = none ∧
    fetchVideoHTML
        (scriptedHttp [{ StatusCode := 200, Body := .ok consentPageNoToken },
          { StatusCode := 200, Body := .ok watchPage }]) 0 "vid"
      = .ok (2, watchPage) :=
  ⟨rfl, rfl,
    (fetchVideoHTML_drops_cookie_error
      (scriptedHttp [{ StatusCode := 200, Body := .ok consentPageNoToken },
        { StatusCode := 200, Body := .ok watchPage }]) 0 1 2 "vid" consentPageNoToken
      watchPage rfl rfl rfl rfl rfl).2⟩

/-! ## C19, C20: the fields of a segment -/

theorem lastAttr_cons (name : String) (a : Attr) (rest : List Attr) :
    lastAttr name (a :: rest) =
      (lastAttr name rest).or (if decide (a.Name.Local = name) = true then some a else none) :=
  getLast?_filter_cons (fun x : Attr => decide (x.Name.Local = name)) a rest

/-- The values the attribute loop hands back: the parsed value of the last `start`
(`dur`) attribute, the initial value when there is none. -/
theorem parseAttrs_last {F : Type} (pf : String → Except Error F) (attrs : List Attr)
    (s d s' d' : F) (h : parseAttrs pf attrs s d = .ok (s', d')) :
    (match lastAttr "start" attrs with
      | some a => pf a.Value = .ok s'
      | none => s' = s) ∧
    (match lastAttr "dur" attrs with
      | some a => pf a.Value = .ok d'
      | none => d' = d) := by
  induction attrs generalizing s d with
  | nil =>
    simp only [parseAttrs, Except.ok.injEq, Prod.mk.injEq] at h
    exact ⟨h.1.symm, h.2.symm⟩
  | cons a rest ih =>
    rw [lastAttr_cons, lastAttr_cons]
    by_cases hs : a.Name.Local = "start"
    · have hd : ¬ a.Name.Local = "dur" := by rw [hs]; decide
      cases hp : pf a.Value with
      | error c =>
        rw [parseAttrs_start_error pf a rest s d c hs hp] at h
        cases h
      | ok v =>
        rw [parseAttrs_start_ok pf a rest s d v hs hp] at h
        obtain ⟨ih1, ih2⟩ := ih v d h
        constructor
        · cases hl : lastAttr "start" rest with
          | some b =>
            rw [hl] at ih1
            simpa [Option.or] using ih1
          | none =>
            rw [hl] at ih1
            simp only [hs, decide_True, if_true, Option.or]
            rw [hp, ih1]
        · simp only [hd, decide_False, Bool.false_eq_true, if_false, or_none_right]
          exact ih2
    · by_cases hd : a.Name.Local = "dur"
      · cases hp : pf a.Value with
        | error c =>
          rw [parseAttrs_dur_error pf a rest s d c hd hp] at h
          cases h
        | ok v =>
          rw [parseAttrs_dur_ok pf a rest s d v hd hp] at h
          obtain ⟨ih1, ih2⟩ := ih s v h
          constructor
          · simp only [hs, decide_False, Bool.false_eq_true, if_false, or_none_right]
            exact ih1
          · cases hl : lastAttr "dur" rest with
            | some b =>
              rw [hl] at ih2
              simpa [Option.or] using ih2
            | none =>
              rw [hl] at ih2
              simp only [hd, decide_True, if_true, Option.or]
              rw [hp, ih2]
      · rw [parseAttrs_other pf a rest s d hs hd] at h
        obtain ⟨ih1, ih2⟩ := ih s d h
        simp only [hs, hd, decide_False, Bool.false_eq_true, if_false, or_none_right]
        exact ⟨ih1, ih2⟩

theorem validNumbers_rootHello :
    ValidNumbers (sampleLib docHello rootHello) rootHello := by
  intro e he a ha _
  simp only [textChildren, rootHello, transcriptRoot, leaf, Element.Children] at he
  rcases List.mem_filter.mp he with ⟨hmem, _⟩
  simp only [List.mem_singleton] at hmem
  subst hmem
  simp only [Element.Attr, List.map, List.mem_cons, List.mem_singleton] at ha
  have hnil : ¬ a ∈ ([] : List Attr) := List.not_mem_nil a
  rcases ha with rfl | rfl | h
  · exact ⟨1 / 2, rfl⟩
  · exact ⟨23 / 10, rfl⟩
  · exact absurd h hnil

/-- The fields of a segment as the code computes them: in a document with well-formed
numbers, the segment of each `text` child has as Text the result of one call of
`html.UnescapeString` on the raw content followed by the deletion of the matches of the
pattern of `getHTMLRegex`, as Start the parsed value of its `start` attribute and as
Duration the parsed value of its `dur` attribute (the last one, should several
attributes carry the name). -/
theorem Parse_segment_fields {F : Type} [Zero F] (lib : Libs F) (t : TranscriptParser)
    (b : String) (root : Element) (hxml : lib.xmlParse b = .ok root)
    (hvalid : ValidNumbers lib root) :
    ∃ segs, t.Parse lib b = (segs, none) ∧
      ∀ (i : Nat) (e : Element), (textChildren root)[i]? = some e →
        ∃ seg, segs[i]? = some seg ∧
          seg.Text = t.getHTMLRegex.ReplaceAllString (lib.UnescapeString e.Content) "" ∧
          (∀ a, lastAttr "start" e.Attr = some a → lib.ParseFloat a.Value = .ok seg.Start) ∧
          (∀ a, lastAttr "dur" e.Attr = some a → lib.ParseFloat a.Value = .ok seg.Duration) := by
  obtain ⟨segs, hparse, hall⟩ := Parse_valid lib t b root hxml hvalid
  refine ⟨segs, hparse, ?_⟩
  intro i e he
  obtain ⟨seg, hseg, hfrom⟩ := forall₂_getElem? hall i e he
  obtain ⟨htext, hattrs⟩ := (segmentOf_ok_iff lib _ e seg).mp hfrom
  obtain ⟨hstart, hdur⟩ := parseAttrs_last lib.ParseFloat e.Attr 0 0 _ _ hattrs
  refine ⟨seg, hseg, htext, ?_, ?_⟩
  · intro a ha
    rw [ha] at hstart
    exact hstart
  · intro a ha
    rw [ha] at hdur
    exact hdur

/-- The fields of a segment on the document of the specification, and on the content
`&amp;amp;`, which one pass of unescaping turns into `&amp;`. -/
theorem Parse_segment_fields_example :
    TranscriptParser.Parse (sampleLib docHello rootHello) { preserveFormatting := false }
        docHello
      = ([{ Text := "Hello & welcome", Start := 1 / 2, Duration := 23 / 10 }], none) ∧
    TranscriptParser.Parse (sampleLib docAmpAmp rootAmpAmp) { preserveFormatting := false }
        docAmpAmp
      = ([{ Text := "&amp;", Start := 0, Duration := 0 }], none) ∧
    ∃ segs, TranscriptParser.Parse (sampleLib docHello rootHello)
        { preserveFormatting := false } docHello = (segs, none) ∧
      ∀ (i : Nat) (e : Element), (textChildren rootHello)[i]? = some e →
        ∃ seg, segs[i]? = some seg ∧
          seg.Text = (TranscriptParser.getHTMLRegex { preserveFormatting := false }).ReplaceAllString
            ((sampleLib docHello rootHello).UnescapeString e.Content) "" ∧
          (∀ a, lastAttr "start" e.Attr = some a →
            (sampleLib docHello rootHello).ParseFloat a.Value = .ok seg.Start) ∧
          (∀ a, lastAttr "dur" e.Attr = some a →
            (sampleLib docHello rootHello).ParseFloat a.Value = .ok seg.Duration) :=
  ⟨rfl, rfl, Parse_segment_fields (sampleLib docHello rootHello)
    { preserveFormatting := false } docHello rootHello rfl validNumbers_rootHello⟩

/-- C19: evaluation of `Parse` on the document
`<transcript><text start="0.5" dur="2.3"><b>hi</b> there</text></transcript>`. Start
and Duration are the parsed values 0.5 and 2.3, but the Text is `<b>hi</b> there`: the
content is unescaped once and then left as it is, the formatting tags `<b>` and `</b>`
are not removed. -/
theorem Parse_text_keeps_bold_tags :
    (sampleLib docBold rootBold).UnescapeString "<b>hi</b> there" = "<b>hi</b> there" ∧
    TranscriptParser.Parse (sampleLib docBold rootBold) { preserveFormatting := false }
        docBold
      = ([{ Text := "<b>hi</b> there", Start := 1 / 2, Duration := 23 / 10 }], none) :=
  ⟨rfl, rfl⟩

/-- C20: `Parse` does not depend on preserveFormatting: on every document the parser
with preserveFormatting=true and the parser with preserveFormatting=false return the
same segments and the same error, and they build the same expression. -/
theorem Parse_ignores_preserveFormatting {F : Type} [Zero F] (lib : Libs F) (b : String) :
    TranscriptParser.Parse lib { preserveFormatting := true } b =
        TranscriptParser.Parse lib { preserveFormatting := false } b ∧
      TranscriptParser.getHTMLRegex { preserveFormatting := true } =
        TranscriptParser.getHTMLRegex { preserveFormatting := false } :=
  ⟨rfl, rfl⟩

/-! ## C13: the orchestrator -/

theorem intercalate_go_append (acc x sep : String) (l : List String) :
    String.intercalate.go (acc ++ x) sep l = acc ++ String.intercalate.go x sep l := by
  induction l generalizing x with
  | nil => rfl
  | cons a rest ih =>
    simp only [String.intercalate.go]
    rw [String.append_assoc, String.append_assoc, ← String.append_assoc x sep a]
    exact ih (x ++ sep ++ a)

/-- `strings.Join(elems, " ")` puts one space between consecutive elements and none
before the first or after the last. -/
theorem Join_space (elems : List String) :
    strings.Join elems " " = joinWithSpaces elems := by
  unfold strings.Join
  induction elems with
  | nil => rfl
  | cons a rest ih =>
    cases rest with
    | nil => rfl
    | cons b rest' =>
      have hstep : String.intercalate " " (a :: b :: rest') =
          a ++ " " ++ String.intercalate " " (b :: rest') := by
        show String.intercalate.go a " " (b :: rest') = a ++ " " ++ String.intercalate.go b " " rest'
        simp only [String.intercalate.go]
        rw [intercalate_go_append]
      rw [hstep, ih]
      rfl

/-- C13: when listing, lookup and fetch succeed with segments `segs`, `GetTranscript`
returns their texts in order with exactly one space between consecutive texts (the
empty string for no segment) and a nil error; when the listing, the lookup or the fetch
returns an error, it returns the empty string and that error wrapped with the message
of the stage. -/
theorem GetTranscript_result {σ F : Type} [Zero F] (http : Http σ)
    (jsonUnmarshal : String → Except Error (GoMap JSON)) (lib : Libs F)
    (yt : youtubeTranscript) (s : σ) (videoID : String) :
    (∀ (s1 : σ) (tl : TranscriptList) (t : Transcript) (segs : List (ReturnTranscript F)),
      listTranscripts http jsonUnmarshal s videoID = .ok (s1, tl) →
      FindTranscript tl yt.options.lang = .ok t →
      t.Fetch http lib s1 yt.options.preserveFormatting = (segs, none) →
      yt.GetTranscript http jsonUnmarshal lib s videoID =
        .returned (joinWithSpaces (segs.map (fun seg => seg.Text))) none) ∧
    (∀ e : Error, listTranscripts http jsonUnmarshal s videoID = .err e →
      yt.GetTranscript http jsonUnmarshal lib s videoID =
        .returned "" (some (.wrap "failed to list transcripts" e))) ∧
    (∀ (s1 : σ) (tl : TranscriptList) (e : Error),
      listTranscripts http jsonUnmarshal s videoID = .ok (s1, tl) →
      FindTranscript tl yt.options.lang = .err e →
      yt.GetTranscript http jsonUnmarshal lib s videoID =
        .returned ""
          (some (.wrap ("failed to find transcripts for language " ++
            fmtStrings yt.options.lang) e))) ∧
    (∀ (s1 : σ) (tl : TranscriptList) (t : Transcript) (segs : List (ReturnTranscript F))
        (e : Error),
      listTranscripts http jsonUnmarshal s videoID = .ok (s1, tl) →
      FindTranscript tl yt.options.lang = .ok t →
      t.Fetch http lib s1 yt.options.preserveFormatting = (segs, some e) →
      yt.GetTranscript http jsonUnmarshal lib s videoID =
        .returned "" (some (.wrap "failed to fetch transcript" e))) := by
  refine ⟨?_, ?_, ?_, ?_⟩
  · intro s1 tl t segs hlist hfind hfetch
    simp only [youtubeTranscript.GetTranscript, hlist, hfind, hfetch]
    rw [Join_space]
  · intro e hlist
    simp only [youtubeTranscript.GetTranscript, hlist]
  · intro s1 tl e hlist hfind
    simp only [youtubeTranscript.GetTranscript, hlist, hfind]
  · intro s1 tl t segs e hlist hfind hfetch
    simp only [youtubeTranscript.GetTranscript, hlist, hfind, hfetch]

/-- C13, end to end: the client answers with the watch page and then with a caption
document of two `text` elements; the result is `Hello & welcome bye`. When the client
answers nothing, the result is the empty string and the wrapped error. -/
theorem GetTranscript_result_witness :
    youtubeTranscript.GetTranscript
        (scriptedHttp [{ StatusCode := 200, Body := .ok watchPage },
          { StatusCode := 200, Body := .ok docHelloBye }])
        (tableDecoder [(watchChunk, watchManifest)]) (sampleLib docHelloBye rootHelloBye)
        { options := { lang := ["en"], preserveFormatting := false } } 0 "vid"
      = .returned (joinWithSpaces ["Hello & welcome", "bye"]) none ∧
    joinWithSpaces ["Hello & welcome", "bye"] = "Hello & welcome bye" ∧
    youtubeTranscript.GetTranscript (scriptedHttp [])
        (tableDecoder [(watchChunk, watchManifest)]) (sampleLib docHelloBye rootHelloBye)
        { options := { lang := ["en"], preserveFormatting := false } } 0 "vid"
      = .returned ""
          (some (.wrap "failed to list transcripts"
            (.wrap "failed to fetch transcript list"
              (.wrap "failed to fetch video HTML"
                (.wrap "failed to fetch video HTML"
                  (.wrap "failed to fetch video HTML" (.lib "connection refused"))))))) :=
  ⟨(GetTranscript_result
      (scriptedHttp [{ StatusCode := 200, Body := .ok watchPage },
        { StatusCode := 200, Body := .ok docHelloBye }])
      (tableDecoder [(watchChunk, watchManifest)]) (sampleLib docHelloBye rootHelloBye)
      { options := { lang := ["en"], preserveFormatting := false } } 0 "vid").1
      1 catalogU1 trackU1
      [{ Text := "Hello & welcome", Start := 1 / 2, Duration := 23 / 10 },
        { Text := "bye", Start := 7, Duration := 0 }]
      rfl rfl rfl,
    rfl,
    (GetTranscript_result (scriptedHttp [])
      (tableDecoder [(watchChunk, watchManifest)]) (sampleLib docHelloBye rootHelloBye)
      { options := { lang := ["en"], preserveFormatting := false } } 0 "vid").2.1 _ rfl⟩

end YoutubeTranscript
